import Mathlib

/-!
# go-rtorrent: positional decoding of XML-RPC multicall results

A shallow embedding of `xmlrpc/client.go`, `rtorrent/rtorrent.go` and the
command table of `main.go`.

* A Go `interface{}` result is a `Value`.
* A Go function that can end in a run-time panic (a failed one-result type
  assertion `x.(T)`, or an index out of range) returns an `Exec`.
* A Go `(T, error)` result is a pair `T × Option GoError`; `none` is the `nil` error.
* A Go `float64` is an `F64`: sign, integer significand and binary exponent. The conversion
  `float64(n)` and the division round to the nearest value with a 53-bit significand, ties
  to even. The exponent is unbounded: overflow, subnormals, infinities and NaN do not arise
  from a 64-bit integer divided by 1000. A `float64` record field holds the rational number
  the `F64` denotes.
-/

namespace GoRtorrent

/-! ## Values and errors -/

/-- Modelled from the spec: the cases of a decoded wire value (§3 "Value"). The decoder that
builds them (`xmlrpc.Unmarshal`) has no source file here; in the Go code a
value is an `interface{}` whose dynamic type is one of these cases. -/
inductive Value where
  | int (n : Int)
  | double (x : Rat)
  | bool (b : Bool)
  | str (s : String)
  | dateTime (t : Int)
  | binary (bytes : List Nat)
  | array (xs : List Value)
  | struct (fields : List (String × Value))
  | nil

/-- Fault reported by the remote side: `{code, message}`. -/
structure Fault where
  code : Int
  message : String
deriving DecidableEq, Repr

/-- Go `error` values built by the code, kept symbolic. -/
inductive GoError where
  /-- an error produced by a collaborator (`Marshal`, the HTTP client, `Unmarshal`) -/
  | external (msg : String)
  /-- `errors.New(msg)` -/
  | new (msg : String)
  /-- `errors.Wrap(cause, msg)` -/
  | wrap (cause : GoError) (msg : String)
  /-- `errors.Errorf("Error: %v: %v", err, fault)` with a nil `err` -/
  | faultOnly (fault : Fault)
  /-- `errors.Errorf("Error: %v: %v", err, fault)` with a non-nil `err` -/
  | faultWith (cause : GoError) (fault : Fault)
  /-- `errors.Errorf(format, result)`, e.g. `"result isn't int: %v"` -/
  | errorf (format : String) (arg : Value)

/-- The two run-time panics the decoding code can raise. -/
inductive Panic where
  | typeAssertion
  | indexOutOfRange
deriving DecidableEq, Repr

/-- Outcome of running Go code: it either panics or returns normally. -/
inductive Exec (α : Type) where
  | panicked (p : Panic)
  | done (a : α)

namespace Exec

/-- Sequencing: a panic propagates. -/
def bind {α β : Type} : Exec α → (α → Exec β) → Exec β
  | panicked p, _ => panicked p
  | done a, f => f a

instance : Monad Exec where
  pure := Exec.done
  bind := Exec.bind

/-- The run ended in a panic. -/
def isPanic {α : Type} : Exec α → Bool
  | panicked _ => true
  | done _ => false

end Exec

/-- `v.(int)`. -/
def Value.assertInt : Value → Exec Int
  | .int n => .done n
  | _ => .panicked .typeAssertion

/-- `v.(string)`. -/
def Value.assertString : Value → Exec String
  | .str s => .done s
  | _ => .panicked .typeAssertion

/-- `v.([]interface{})`. -/
def Value.assertArray : Value → Exec (List Value)
  | .array xs => .done xs
  | _ => .panicked .typeAssertion

/-- `d[i]`. -/
def index (d : List Value) (i : Nat) : Exec Value :=
  match d[i]? with
  | some v => .done v
  | none => .panicked .indexOutOfRange

/-- `d[i].(int)`. -/
def indexInt (d : List Value) (i : Nat) : Exec Int := do
  let v ← index d i
  v.assertInt

/-- `d[i].(string)`. -/
def indexString (d : List Value) (i : Nat) : Exec String := do
  let v ← index d i
  v.assertString

/-! ## float64 -/

/-- A finite `float64`: the number `(-1)^neg * m / 2^s`. -/
structure F64 where
  neg : Bool
  m : Nat
  s : Int
deriving DecidableEq, Repr

/-- The floor of the binary logarithm of `n` by repeated halving (0 for `n < 2`); `fuel`
bounds the number of halvings, and `fuel = n` is always enough. -/
def F64.log2Fuel : Nat → Nat → Nat
  | 0, _ => 0
  | fuel + 1, n => if 2 ≤ n then F64.log2Fuel fuel (n / 2) + 1 else 0

/-- Whether `2^k ≤ a / q`, in integer arithmetic. -/
def F64.geScaled (a q : Nat) (k : Int) : Bool :=
  if 0 ≤ k then decide (q * 2 ^ k.toNat ≤ a) else decide (q ≤ a * 2 ^ (-k).toNat)

/-- Round the positive rational `a / q` to 53 significant bits, to nearest, ties to even:
the result `(m, s)` denotes `m / 2^s`. With `e` the floor of the binary logarithm of `a / q`,
`m` is `a / q * 2^(52 - e)` rounded to an integer. -/
def F64.roundQuot (a q : Nat) : Nat × Int :=
  let e0 : Int := (F64.log2Fuel a a : Int) - (F64.log2Fuel q q : Int)
  let e : Int := if F64.geScaled a q e0 then e0 else e0 - 1
  let s : Int := 52 - e
  let N : Nat := if 0 ≤ s then a * 2 ^ s.toNat else a
  let D : Nat := if 0 ≤ s then q else q * 2 ^ (-s).toNat
  let m0 := N / D
  let rem := N % D
  let m := if D < 2 * rem then m0 + 1 else if 2 * rem = D then m0 + m0 % 2 else m0
  (m, s)

/-- The rational number an `F64` denotes. -/
def F64.toRat (x : F64) : Rat :=
  (if x.neg then -1 else 1) *
    (if 0 ≤ x.s then (x.m : Rat) / 2 ^ x.s.toNat else (x.m : Rat) * 2 ^ (-x.s).toNat)

/-- The conversion `float64(n)` of an integer. -/
def F64.ofInt (n : Int) : F64 :=
  if n = 0 then ⟨false, 0, 0⟩
  else
    let r := F64.roundQuot n.natAbs 1
    ⟨decide (n < 0), r.1, r.2⟩

/-- The division `x / y` of two `float64` values, `y` not zero (the code only divides by
`float64(1000)`): the exact quotient, rounded. -/
def F64.div (x y : F64) : F64 :=
  if x.m = 0 ∨ y.m = 0 then ⟨false, 0, 0⟩
  else
    let r := F64.roundQuot x.m y.m
    ⟨xor x.neg y.neg, r.1, r.2 + x.s - y.s⟩

/-- `float64(n) / float64(1000)`. -/
def ratioOf (n : Int) : Rat := (F64.div (F64.ofInt n) (F64.ofInt 1000)).toRat

/-! ## xmlrpc/client.go -/

/-- What `Unmarshal` hands back: `_, val, fault, err`. -/
structure UnmarshalResult where
  val : Value
  fault : Option Fault
  err : Option GoError

/-- `xmlrpc.Client`, with `Marshal`, the HTTP POST and `Unmarshal` as abstract steps
(none of the three has a source file here). Documents are strings. -/
structure Client where
  addr : String
  Marshal : String → List Value → Except GoError String
  Post : String → String → Except GoError String
  Unmarshal : String → UnmarshalResult

/-- `Client.Call`. -/
def Client.Call (c : Client) (name : String) (args : List Value) : Value × Option GoError :=
  match c.Marshal name args with
  | .error err => (Value.nil, some (GoError.wrap err "failed to marshal request"))
  | .ok req =>
    match c.Post c.addr req with
    | .error err => (Value.nil, some (GoError.wrap err "POST failed"))
    | .ok body =>
      let u := c.Unmarshal body
      match u.fault with
      | some fault =>
        match u.err with
        | none => (u.val, some (GoError.faultOnly fault))
        | some err => (u.val, some (GoError.faultWith err fault))
      | none => (u.val, u.err)

/-! ## rtorrent/rtorrent.go -/

/-- `Torrent`. -/
structure Torrent where
  Hash : String
  Name : String
  Path : String
  Size : Int
  Completed : Bool
  CompletedBytes : Int
  Ratio : Rat
  State : Int
  DownRate : Int
  UpRate : Int
  PeersConnected : Int
  PeersNotConnected : Int
  PeersComplete : Int
  PeersAccounted : Int
  Hashing : Int
  ChunkSize : Int
  IsMultiFile : Bool
deriving DecidableEq

/-- `File`. -/
structure File where
  Path : String
  Size : Int
  Priority : Int
  Index : Int
  TotalChunks : Int
  ChunksCompleted : Int
deriving DecidableEq

/-- The zero value of `Torrent` (`var ret Torrent`, or a composite literal's unset fields). -/
def Torrent.zero : Torrent :=
  { Hash := "", Name := "", Path := "", Size := 0, Completed := false, CompletedBytes := 0,
    Ratio := 0, State := 0, DownRate := 0, UpRate := 0, PeersConnected := 0,
    PeersNotConnected := 0, PeersComplete := 0, PeersAccounted := 0, Hashing := 0,
    ChunkSize := 0, IsMultiFile := false }

/-- `ViewMain`. -/
def ViewMain : String := "main"

/-- The `args` of `GetTorrent`. -/
def GetTorrent.args : List Value :=
  [.str "", .str ViewMain, .str "d.hash=", .str "d.complete=", .str "d.completed_bytes=",
   .str "d.down.rate=", .str "d.up.rate=", .str "d.ratio=", .str "d.size_bytes=",
   .str "d.state=", .str "d.peers_connected=", .str "d.name=", .str "d.base_path=",
   .str "d.hashing=", .str "d.chunk_size=", .str "d.peers_not_connected=",
   .str "d.peers_accounted=", .str "d.peers_complete=", .str "d.is_multi_file="]

/-- The body of the `if hash == t.Hash` branch of `GetTorrent`: fills `ret` from `d`. -/
def GetTorrent.fill (hash : String) (d : List Value) : Exec Torrent := do
  let completed ← indexInt d 1
  let completedBytes ← indexInt d 2
  let downRate ← indexInt d 3
  let upRate ← indexInt d 4
  let ratio ← indexInt d 5
  let size ← indexInt d 6
  let state ← indexInt d 7
  let peersConnected ← indexInt d 8
  let name ← indexString d 9
  let path ← indexString d 10
  let hashing ← indexInt d 11
  let chunkSize ← indexInt d 12
  let peersNotConnected ← indexInt d 13
  let peersAccounted ← indexInt d 14
  let peersComplete ← indexInt d 15
  let isMultiFile ← indexInt d 16
  pure { Hash := hash, Completed := decide (completed > 0), CompletedBytes := completedBytes,
         DownRate := downRate, UpRate := upRate, Ratio := ratioOf ratio, Size := size,
         State := state, PeersConnected := peersConnected, Name := name, Path := path,
         Hashing := hashing, ChunkSize := chunkSize, PeersNotConnected := peersNotConnected,
         PeersAccounted := peersAccounted, PeersComplete := peersComplete,
         IsMultiFile := decide (isMultiFile > 0) }

/-- The inner loop of `GetTorrent`; `some ret` is the early `return ret, nil`. -/
def GetTorrent.inner (t : Torrent) : List Value → Exec (Option Torrent)
  | [] => .done none
  | innerResult :: rest => do
    let d ← innerResult.assertArray
    let hash ← indexString d 0
    if hash = t.Hash then
      let ret ← GetTorrent.fill hash d
      pure (some ret)
    else
      GetTorrent.inner t rest

/-- The outer loop of `GetTorrent`. -/
def GetTorrent.outer (t : Torrent) : List Value → Exec (Option Torrent)
  | [] => .done none
  | outerResult :: rest => do
    let inners ← outerResult.assertArray
    match ← GetTorrent.inner t inners with
    | some ret => pure (some ret)
    | none => GetTorrent.outer t rest

/-- `RTorrent.GetTorrent`. -/
def GetTorrent (c : Client) (t : Torrent) : Exec (Torrent × Option GoError) :=
  match c.Call "d.multicall2" GetTorrent.args with
  | (_, some err) => .done (Torrent.zero, some err)
  | (results, none) => do
    let outers ← results.assertArray
    match ← GetTorrent.outer t outers with
    | some ret => pure (ret, none)
    | none => pure (Torrent.zero, some (GoError.new "torrent not found"))

/-- The `args` of `GetTorrents`. -/
def GetTorrents.args (view : String) : List Value :=
  [.str "", .str view, .str "d.name=", .str "d.size_bytes=", .str "d.hash=", .str "d.custom1=",
   .str "d.base_path=", .str "d.is_active=", .str "d.complete=", .str "d.ratio="]

/-- The composite literal `Torrent{...}` of `GetTorrents`, its fields evaluated in source order. -/
def GetTorrents.entry (torrentData : List Value) : Exec Torrent := do
  let hash ← indexString torrentData 2
  let name ← indexString torrentData 0
  let path ← indexString torrentData 4
  let size ← indexInt torrentData 1
  let completed ← indexInt torrentData 6
  let ratio ← indexInt torrentData 7
  pure { Torrent.zero with
         Hash := hash, Name := name, Path := path, Size := size,
         Completed := decide (completed > 0), Ratio := ratioOf ratio }

/-- The inner loop of `GetTorrents`, appending to `torrents`. -/
def GetTorrents.inner : List Value → List Torrent → Exec (List Torrent)
  | [], torrents => .done torrents
  | innerResult :: rest, torrents => do
    let torrentData ← innerResult.assertArray
    let t ← GetTorrents.entry torrentData
    GetTorrents.inner rest (torrents ++ [t])

/-- The outer loop of `GetTorrents`. -/
def GetTorrents.outer : List Value → List Torrent → Exec (List Torrent)
  | [], torrents => .done torrents
  | outerResult :: rest, torrents => do
    let inners ← outerResult.assertArray
    let torrents ← GetTorrents.inner inners torrents
    GetTorrents.outer rest torrents

/-- `RTorrent.GetTorrents`. -/
def GetTorrents (c : Client) (view : String) : Exec (List Torrent × Option GoError) :=
  match c.Call "d.multicall2" (GetTorrents.args view) with
  | (_, some err) => .done ([], some (GoError.wrap err "d.multicall2 XMLRPC call failed"))
  | (results, none) => do
    let outers ← results.assertArray
    let torrents ← GetTorrents.outer outers []
    pure (torrents, none)

/-- The `args` of `GetFiles`. -/
def GetFiles.args (t : Torrent) : List Value :=
  [.str t.Hash, .int 0, .str "f.path=", .str "f.size_bytes=", .str "f.priority=",
   .str "f.completed_chunks=", .str "f.size_chunks="]

/-- The composite literal `File{...}` of `GetFiles`. -/
def GetFiles.entry (i : Nat) (fileData : List Value) : Exec File := do
  let path ← indexString fileData 0
  let size ← indexInt fileData 1
  let priority ← indexInt fileData 2
  let chunksCompleted ← indexInt fileData 3
  let totalChunks ← indexInt fileData 4
  pure { Path := path, Size := size, Priority := priority, Index := (i : Int),
         ChunksCompleted := chunksCompleted, TotalChunks := totalChunks }

/-- The inner loop of `GetFiles`; `i` is the loop index of `range outerResult`. -/
def GetFiles.inner : List Value → Nat → List File → Exec (List File)
  | [], _, files => .done files
  | innerResult :: rest, i, files => do
    let fileData ← innerResult.assertArray
    let f ← GetFiles.entry i fileData
    GetFiles.inner rest (i + 1) (files ++ [f])

/-- The outer loop of `GetFiles`: the inner index restarts at 0 for every outer array. -/
def GetFiles.outer : List Value → List File → Exec (List File)
  | [], files => .done files
  | outerResult :: rest, files => do
    let inners ← outerResult.assertArray
    let files ← GetFiles.inner inners 0 files
    GetFiles.outer rest files

/-- `RTorrent.GetFiles`. -/
def GetFiles (c : Client) (t : Torrent) : Exec (List File × Option GoError) :=
  match c.Call "f.multicall" (GetFiles.args t) with
  | (_, some err) => .done ([], some (GoError.wrap err "f.multicall XMLRPC call failed"))
  | (results, none) => do
    let outers ← results.assertArray
    let files ← GetFiles.outer outers []
    pure (files, none)

/-- The shared body of `DownTotal`, `DownRate`, `UpTotal` and `UpRate`, which differ only in
the method name: unwrap a one-element array, then expect an `int`. -/
def intMetric (c : Client) (method : String) : Exec (Int × Option GoError) :=
  match c.Call method [] with
  | (_, some err) => .done (0, some (GoError.wrap err (method ++ " XMLRPC call failed")))
  | (result, none) => do
    let result ← (match result with
      | .array totals => index totals 0
      | r => pure r)
    match result with
    | .int total => pure (total, none)
    | r => pure (0, some (GoError.errorf "result isn't int: %v" r))

/-- The shared body of `IP` and `Name`: unwrap a one-element array, then expect a `string`. -/
def stringProperty (c : Client) (method : String) : Exec (String × Option GoError) :=
  match c.Call method [] with
  | (_, some err) => .done ("", some (GoError.wrap err (method ++ " XMLRPC call failed")))
  | (result, none) => do
    let result ← (match result with
      | .array ips => index ips 0
      | r => pure r)
    match result with
    | .str ip => pure (ip, none)
    | r => pure ("", some (GoError.errorf "result isn't string: %v" r))

/-- `RTorrent.DownTotal`. -/
def DownTotal (c : Client) : Exec (Int × Option GoError) := intMetric c "throttle.global_down.total"

/-- `RTorrent.DownRate`. -/
def DownRate (c : Client) : Exec (Int × Option GoError) := intMetric c "throttle.global_down.rate"

/-- `RTorrent.UpTotal`. -/
def UpTotal (c : Client) : Exec (Int × Option GoError) := intMetric c "throttle.global_up.total"

/-- `RTorrent.UpRate`. -/
def UpRate (c : Client) : Exec (Int × Option GoError) := intMetric c "throttle.global_up.rate"

/-- `RTorrent.IP`. -/
def IP (c : Client) : Exec (String × Option GoError) := stringProperty c "network.bind_address"

/-- `RTorrent.Name`. -/
def Name (c : Client) : Exec (String × Option GoError) := stringProperty c "system.hostname"

/-! ### Commands that issue one call

For these the model records the remote calls issued. -/

/-- One remote call: method name and arguments. -/
structure CallRecord where
  name : String
  args : List Value

/-- What a command did: the remote calls it issued, in order, and the error it returned. -/
structure Ran where
  calls : List CallRecord
  err : Option GoError

/-- The shared body of `StartTorrent`, `StopTorrent`, `CloseTorrent` and `Delete`:
`Call(method, t.Hash)`, the error wrapped. -/
def hashCommand (c : Client) (method : String) (t : Torrent) : Ran :=
  match c.Call method [.str t.Hash] with
  | (_, some err) =>
    { calls := [⟨method, [.str t.Hash]⟩],
      err := some (GoError.wrap err (method ++ " XMLRPC call failed")) }
  | (_, none) => { calls := [⟨method, [.str t.Hash]⟩], err := none }

/-- `RTorrent.StartTorrent`. -/
def StartTorrent (c : Client) (t : Torrent) : Ran := hashCommand c "d.start" t

/-- `RTorrent.StopTorrent`. -/
def StopTorrent (c : Client) (t : Torrent) : Ran := hashCommand c "d.stop" t

/-- `RTorrent.CloseTorrent`. -/
def CloseTorrent (c : Client) (t : Torrent) : Ran := hashCommand c "d.close" t

/-- `RTorrent.Delete`. -/
def Delete (c : Client) (t : Torrent) : Ran := hashCommand c "d.erase" t

/-- `RTorrent.SetFilePrority`: the target is `fmt.Sprintf("%s:f%d", t.Hash, i)`. -/
def SetFilePrority (c : Client) (t : Torrent) (i : Int) (p : Int) : Ran :=
  match c.Call "f.priority.set" [.str (t.Hash ++ ":f" ++ toString i), .int p] with
  | (_, some err) =>
    { calls := [⟨"f.priority.set", [.str (t.Hash ++ ":f" ++ toString i), .int p]⟩],
      err := some (GoError.wrap err "f.priority.set XMLRPC call failed") }
  | (_, none) =>
    { calls := [⟨"f.priority.set", [.str (t.Hash ++ ":f" ++ toString i), .int p]⟩],
      err := none }

/-! ## main.go -/

/-- The package-level variables the actions below read: `conn` and `hash`. -/
structure Globals where
  conn : Client
  hash : String

/-- `errors.Wrap(err, msg)` applied to a possibly nil error of a finished command. -/
def wrapRan (r : Ran) (msg : String) : Ran :=
  match r.err with
  | some err => { r with err := some (GoError.wrap err msg) }
  | none => r

/-- `startTorrent` of main.go. -/
def startTorrent (g : Globals) : Ran :=
  wrapRan (StartTorrent g.conn { Torrent.zero with Hash := g.hash }) "failed to start torrent"

/-- `stopTorrent` of main.go. -/
def stopTorrent (g : Globals) : Ran :=
  wrapRan (StartTorrent g.conn { Torrent.zero with Hash := g.hash }) "failed to start torrent"

/-- `closeTorrent` of main.go. -/
def closeTorrent (g : Globals) : Ran :=
  wrapRan (CloseTorrent g.conn { Torrent.zero with Hash := g.hash }) "failed to start torrent"

/-- `deleteTorrent` of main.go. -/
def deleteTorrent (g : Globals) : Ran :=
  wrapRan (Delete g.conn { Torrent.zero with Hash := g.hash }) "failed to start torrent"

/-- The loop `for i := range files` of `skipAllFiles`; `i` is the loop index. It stops at
the first call that fails. -/
def skipAllFiles.loop (g : Globals) : List File → Nat → Ran
  | [], _ => { calls := [], err := none }
  | _ :: rest, i =>
    let r := SetFilePrority g.conn { Torrent.zero with Hash := g.hash } (i : Int) 0
    match r.err with
    | some err => { calls := r.calls, err := some (GoError.wrap err "failed to list methods") }
    | none =>
      let r' := skipAllFiles.loop g rest (i + 1)
      { calls := r.calls ++ r'.calls, err := r'.err }

/-- `skipAllFiles` of main.go. -/
def skipAllFiles (g : Globals) : Exec Ran := do
  let (files, err) ← GetFiles g.conn { Torrent.zero with Hash := g.hash }
  match err with
  | some err =>
    pure { calls := [⟨"f.multicall", GetFiles.args { Torrent.zero with Hash := g.hash }⟩],
           err := some (GoError.wrap err "failed to get files") }
  | none =>
    let r := skipAllFiles.loop g files 0
    pure { calls := ⟨"f.multicall", GetFiles.args { Torrent.zero with Hash := g.hash }⟩ :: r.calls,
           err := r.err }

/-- The entries of `nApp.Commands` in `initApp` whose action is one of the four above,
in source order: command name and bound action. -/
def initApp.commands : List (String × (Globals → Ran)) :=
  [("start-torrent", startTorrent), ("stop-torrent", stopTorrent),
   ("close-torrent", closeTorrent), ("delete-torrent", deleteTorrent)]

/-- The action bound to a command name. -/
def initApp.action (name : String) : Option (Globals → Ran) :=
  (initApp.commands.find? (fun cmd => cmd.1 == name)).map (fun cmd => cmd.2)

/-! ## Well-formed listings (specification side) -/

/-- The case a schema position expects. -/
inductive Kind where
  | int
  | str
deriving DecidableEq, Repr

/-- The value has the expected case. -/
def Value.hasKind : Value → Kind → Bool
  | .int _, .int => true
  | .str _, .str => true
  | _, _ => false

/-- The value is an array. -/
def Value.isArray : Value → Bool
  | .array _ => true
  | _ => false

/-- The elements of an array value (nothing for any other case). -/
def Value.elems : Value → List Value
  | .array xs => xs
  | _ => []

/-- The integer carried by an `int` value. -/
def Value.toInt : Value → Int
  | .int n => n
  | _ => 0

/-- The string carried by a `str` value. -/
def Value.toStr : Value → String
  | .str s => s
  | _ => ""

/-- An entry has exactly the schema's width and every element has the case the schema expects. -/
def entryOk : List Kind → List Value → Bool
  | [], [] => true
  | k :: ks, v :: vs => v.hasKind k && entryOk ks vs
  | _, _ => false

/-- A multicall result is well-formed for a schema: an array of arrays of entries, every
entry an array matching the schema. -/
def wellFormed (schema : List Kind) (results : Value) : Bool :=
  results.isArray && results.elems.all (fun outer =>
    outer.isArray && outer.elems.all (fun e => e.isArray && entryOk schema e.elems))

/-- The entries of a multicall result in wire order: outer arrays first, then inner. -/
def entries (results : Value) : List (List Value) :=
  (results.elems.flatMap Value.elems).map Value.elems

/-- Element `i` of an entry read as an integer. -/
def entryInt (d : List Value) (i : Nat) : Int := (d[i]?.getD Value.nil).toInt

/-- Element `i` of an entry read as a string. -/
def entryStr (d : List Value) (i : Nat) : String := (d[i]?.getD Value.nil).toStr

/-- The cases of the 17 selectors `GetTorrent` sends. -/
def GetTorrent.schema : List Kind :=
  [.str, .int, .int, .int, .int, .int, .int, .int, .int, .str, .str, .int, .int, .int, .int,
   .int, .int]

/-- The cases of the 8 selectors `GetTorrents` sends. -/
def GetTorrents.schema : List Kind := [.str, .int, .str, .str, .str, .int, .int, .int]

/-- The cases of the 5 selectors `GetFiles` sends. -/
def GetFiles.schema : List Kind := [.str, .int, .int, .int, .int]

/-- The record `GetTorrent` is expected to build from a matching entry. -/
def GetTorrent.record (d : List Value) : Torrent :=
  { Hash := entryStr d 0, Completed := decide (entryInt d 1 > 0), CompletedBytes := entryInt d 2,
    DownRate := entryInt d 3, UpRate := entryInt d 4, Ratio := ratioOf (entryInt d 5),
    Size := entryInt d 6, State := entryInt d 7, PeersConnected := entryInt d 8,
    Name := entryStr d 9, Path := entryStr d 10, Hashing := entryInt d 11,
    ChunkSize := entryInt d 12, PeersNotConnected := entryInt d 13,
    PeersAccounted := entryInt d 14, PeersComplete := entryInt d 15,
    IsMultiFile := decide (entryInt d 16 > 0) }

/-- The record `GetTorrents` is expected to build from an entry; the fields it does not
set keep their zero value. -/
def GetTorrents.record (e : List Value) : Torrent :=
  { Torrent.zero with
    Name := entryStr e 0, Size := entryInt e 1, Hash := entryStr e 2, Path := entryStr e 4,
    Completed := decide (entryInt e 6 > 0), Ratio := ratioOf (entryInt e 7) }

/-- The record `GetFiles` is expected to build from the entry at position `i` of its outer
array. -/
def GetFiles.record (i : Nat) (e : List Value) : File :=
  { Path := entryStr e 0, Size := entryInt e 1, Priority := entryInt e 2, Index := (i : Int),
    ChunksCompleted := entryInt e 3, TotalChunks := entryInt e 4 }

/-- The records of the entries of one outer array, the first of them at position `i`. -/
def GetFiles.recordsFrom : Nat → List Value → List File
  | _, [] => []
  | i, e :: rest => GetFiles.record i e.elems :: GetFiles.recordsFrom (i + 1) rest

/-- The call `skipAllFiles` is expected to issue for the file with index `i`:
`f.priority.set` on target `<hash>:f<i>` with priority 0. -/
def setPriorityCall (hash : String) (i : Int) : CallRecord :=
  ⟨"f.priority.set", [.str (hash ++ ":f" ++ toString i), .int 0]⟩

/-- The value is a number in either wire representation, integer or floating. -/
def Value.isNumber : Value → Bool
  | .int _ => true
  | .double _ => true
  | _ => false

/-- An entry that is well-formed for `GetTorrents` except that its size (position 1) and its
ratio (position 7) may arrive in either numeric representation. -/
def GetTorrents.entryOkEitherNumeric (d : List Value) : Bool :=
  d.length == 8 &&
  (d[0]?.getD Value.nil).hasKind Kind.str && (d[1]?.getD Value.nil).isNumber &&
  (d[2]?.getD Value.nil).hasKind Kind.str && (d[3]?.getD Value.nil).hasKind Kind.str &&
  (d[4]?.getD Value.nil).hasKind Kind.str && (d[5]?.getD Value.nil).hasKind Kind.int &&
  (d[6]?.getD Value.nil).hasKind Kind.int && (d[7]?.getD Value.nil).isNumber

/-- A `d.multicall2` result that is well-formed for `GetTorrents` except that sizes and
ratios may arrive in either numeric representation. -/
def GetTorrents.wellFormedEitherNumeric (results : Value) : Bool :=
  results.isArray && results.elems.all (fun outer =>
    outer.isArray && outer.elems.all (fun e =>
      e.isArray && GetTorrents.entryOkEitherNumeric e.elems))

/-- The entry whose element 0 is the requested hash. -/
def hashIs (hash : String) (d : List Value) : Bool := decide (entryStr d 0 = hash)

/-! ## The multicall convention (remote side) -/

/-- A remote entity (a torrent or a file): the value of each of its named properties. -/
structure Entity where
  strProp : String → String
  intProp : String → Int

/-- The field selectors the code sends whose property is a string; every other one is an
integer. -/
def stringSelectors : List String := ["d.hash=", "d.name=", "d.base_path=", "d.custom1=", "f.path="]

/-- The value the remote gives for one field selector. -/
def Entity.answer (x : Entity) (selector : String) : Value :=
  if selector ∈ stringSelectors then .str (x.strProp selector) else .int (x.intProp selector)

/-- The field selectors of a multicall request: its arguments after the two leading target
arguments. -/
def selectorsOf (args : List Value) : List String := (args.drop 2).map Value.toStr

/-- The multicall convention (§6): one entry per entity, holding the values of the
selectors of the request in the order they were sent, with no names. -/
def respond (xs : List Entity) (args : List Value) : Value :=
  .array [.array (xs.map (fun x => .array ((selectorsOf args).map x.answer)))]

/-- A remote torrent for the examples. -/
def sampleEntity : Entity :=
  { strProp := fun sel => "value of " ++ sel
    intProp := fun sel => (sel.length : Int) }

/-! ## Sample clients and entries -/

/-- A client whose every call succeeds with the value `v`. -/
def stubClient (v : Value) : Client :=
  { addr := "http://myrtorrent/RPC2"
    Marshal := fun _ _ => .ok ""
    Post := fun _ _ => .ok ""
    Unmarshal := fun _ => { val := v, fault := none, err := none } }

/-- A client whose `Unmarshal` hands back both a value and a fault. -/
def faultyClient : Client :=
  { addr := "http://myrtorrent/RPC2"
    Marshal := fun _ _ => .ok ""
    Post := fun _ _ => .ok ""
    Unmarshal := fun _ =>
      { val := .int 1, fault := some { code := 4, message := "method not found" }, err := none } }

/-- A client whose `Marshal` step fails. -/
def brokenClient : Client :=
  { addr := "http://myrtorrent/RPC2"
    Marshal := fun _ _ => .error (GoError.external "unsupported type")
    Post := fun _ _ => .ok ""
    Unmarshal := fun _ => { val := .int 1, fault := none, err := none } }

/-- A well-formed five-element `GetFiles` entry for the file at `path`. -/
def sampleFile (path : String) : Value :=
  .array [.str path, .int 1024, .int 1, .int 2, .int 4]

/-- An `f.multicall` result with exactly one outer array, of three files. -/
def oneOuterArray : Value :=
  .array [.array [sampleFile "a.iso", sampleFile "b.iso", sampleFile "c.iso"]]

/-- An `f.multicall` result that carries two outer arrays: two files, then one more. -/
def twoOuterArrays : Value :=
  .array [.array [sampleFile "a.iso", sampleFile "b.iso"], .array [sampleFile "c.iso"]]

/-- A well-formed 17-element entry with the given hash, name and ratio. -/
def sampleEntry (hash name : String) (ratio : Int) : Value :=
  .array [.str hash, .int 1, .int 4096, .int 0, .int 0, .int ratio, .int 8192, .int 1, .int 3,
    .str name, .str "/downloads", .int 0, .int 512, .int 2, .int 5, .int 1, .int 0]

/-- An eight-element `GetTorrents` entry: name, size, hash, label, path, active, complete,
ratio. -/
def sampleRow (name : String) (size : Value) (hash : String) (complete : Int) (ratio : Value) :
    Value :=
  .array [.str name, size, .str hash, .str "", .str "/downloads", .int 1, .int complete, ratio]

/-! ## Basic lemmas -/

@[simp] theorem Exec.done_bind {α β : Type} (a : α) (f : α → Exec β) :
    (Exec.done a >>= f) = f a := rfl

@[simp] theorem Exec.panicked_bind {α β : Type} (p : Panic) (f : α → Exec β) :
    (Exec.panicked p >>= f) = Exec.panicked p := rfl

@[simp] theorem Exec.pure_eq {α : Type} (a : α) : (pure a : Exec α) = Exec.done a := rfl

theorem index_of_getElem? {d : List Value} {i : Nat} {v : Value} (h : d[i]? = some v) :
    index d i = Exec.done v := by
  simp [index, h]

theorem entryOk_getElem? : ∀ {schema : List Kind} {d : List Value}, entryOk schema d = true →
    ∀ {i : Nat} {k : Kind}, schema[i]? = some k →
      ∃ v, d[i]? = some v ∧ v.hasKind k = true
  | [], [], _, i, k, hk => by simp at hk
  | [], _ :: _, h, _, _, _ => by simp [entryOk] at h
  | _ :: _, [], h, _, _, _ => by simp [entryOk] at h
  | k0 :: ks, v :: vs, h, 0, k, hk => by
    simp [entryOk] at h
    simp at hk
    subst hk
    exact ⟨v, by simp, h.1⟩
  | k0 :: ks, v :: vs, h, i + 1, k, hk => by
    simp [entryOk] at h
    simp at hk
    obtain ⟨w, hw, hwk⟩ := entryOk_getElem? h.2 hk
    exact ⟨w, by simpa using hw, hwk⟩

theorem entryOk_length : ∀ {schema : List Kind} {d : List Value}, entryOk schema d = true →
    d.length = schema.length
  | [], [], _ => rfl
  | [], _ :: _, h => by simp [entryOk] at h
  | _ :: _, [], h => by simp [entryOk] at h
  | _ :: ks, _ :: vs, h => by
    simp [entryOk] at h
    simp [entryOk_length h.2]

theorem indexInt_of_entryOk {schema : List Kind} {d : List Value} (h : entryOk schema d = true)
    {i : Nat} (hk : schema[i]? = some Kind.int) : indexInt d i = Exec.done (entryInt d i) := by
  obtain ⟨v, hv, hvk⟩ := entryOk_getElem? h hk
  cases v <;> simp [Value.hasKind] at hvk
  simp [indexInt, index_of_getElem? hv, entryInt, hv, Value.assertInt, Value.toInt]

theorem indexString_of_entryOk {schema : List Kind} {d : List Value}
    (h : entryOk schema d = true) {i : Nat} (hk : schema[i]? = some Kind.str) :
    indexString d i = Exec.done (entryStr d i) := by
  obtain ⟨v, hv, hvk⟩ := entryOk_getElem? h hk
  cases v <;> simp [Value.hasKind] at hvk
  simp [indexString, index_of_getElem? hv, entryStr, hv, Value.assertString, Value.toStr]

theorem getElem?_int_of_entryOk {schema : List Kind} {d : List Value}
    (h : entryOk schema d = true) {i : Nat} (hk : schema[i]? = some Kind.int) :
    d[i]? = some (Value.int (entryInt d i)) := by
  obtain ⟨v, hv, hvk⟩ := entryOk_getElem? h hk
  cases v <;> simp [Value.hasKind] at hvk
  simp [entryInt, hv, Value.toInt]

/-! ## float64 rounding -/

theorem F64.log2Fuel_spec : ∀ (fuel n : Nat), n ≤ fuel → 0 < n →
    2 ^ F64.log2Fuel fuel n ≤ n ∧ n < 2 ^ (F64.log2Fuel fuel n + 1)
  | 0, n, hle, hpos => by omega
  | fuel + 1, n, hle, hpos => by
    by_cases h2 : 2 ≤ n
    · have ih := F64.log2Fuel_spec fuel (n / 2) (by omega) (by omega)
      simp only [F64.log2Fuel, h2, if_true]
      constructor
      · have := ih.1
        rw [pow_succ]
        omega
      · have := ih.2
        rw [pow_succ]
        omega
    · simp only [F64.log2Fuel, h2, if_false]
      constructor <;> simp <;> omega

theorem F64.geScaled_mono {a q : Nat} {k k' : Int} (h : F64.geScaled a q k = true) (hk : k' ≤ k) :
    F64.geScaled a q k' = true := by
  unfold F64.geScaled at h ⊢
  by_cases h0 : 0 ≤ k
  · simp only [h0, if_true, decide_eq_true_eq] at h
    by_cases h0' : 0 ≤ k'
    · simp only [h0', if_true, decide_eq_true_eq]
      calc q * 2 ^ k'.toNat ≤ q * 2 ^ k.toNat :=
            Nat.mul_le_mul_left _ (Nat.pow_le_pow_right (by norm_num) (by omega))
        _ ≤ a := h
    · simp only [h0', if_false, decide_eq_true_eq]
      calc q ≤ q * 2 ^ k.toNat := Nat.le_mul_of_pos_right _ (Nat.two_pow_pos _)
        _ ≤ a := h
        _ ≤ a * 2 ^ (-k').toNat := Nat.le_mul_of_pos_right _ (Nat.two_pow_pos _)
  · have h0' : ¬ 0 ≤ k' := by omega
    simp only [h0, if_false, decide_eq_true_eq] at h
    simp only [h0', if_false, decide_eq_true_eq]
    calc q ≤ a * 2 ^ (-k).toNat := h
      _ ≤ a * 2 ^ (-k').toNat :=
        Nat.mul_le_mul_left _ (Nat.pow_le_pow_right (by norm_num) (by omega))

theorem F64.geScaled_log2 {a q : Nat} (ha : 0 < a) (hq : 0 < q) :
    F64.geScaled a q ((F64.log2Fuel a a : Int) - (F64.log2Fuel q q : Int) - 1) = true := by
  have hA := (F64.log2Fuel_spec a a (le_refl _) ha).1
  have hQ := (F64.log2Fuel_spec q q (le_refl _) hq).2
  generalize F64.log2Fuel a a = la at hA
  generalize F64.log2Fuel q q = lq at hQ
  unfold F64.geScaled
  by_cases h0 : (0 : Int) ≤ (la : Int) - (lq : Int) - 1
  · simp only [h0, if_true, decide_eq_true_eq]
    obtain ⟨j, hj, hla⟩ : ∃ j : Nat, ((la : Int) - (lq : Int) - 1).toNat = j ∧ la = lq + 1 + j :=
      ⟨_, rfl, by omega⟩
    rw [hj]
    calc q * 2 ^ j ≤ 2 ^ (lq + 1) * 2 ^ j := Nat.mul_le_mul_right _ (le_of_lt hQ)
      _ = 2 ^ la := by rw [hla]; exact (pow_add 2 (lq + 1) j).symm
      _ ≤ a := hA
  · simp only [h0, if_false, decide_eq_true_eq]
    obtain ⟨j, hj, hlq⟩ : ∃ j : Nat, (-((la : Int) - (lq : Int) - 1)).toNat = j ∧ lq + 1 = la + j :=
      ⟨_, rfl, by omega⟩
    rw [hj]
    calc q ≤ 2 ^ (lq + 1) := le_of_lt hQ
      _ = 2 ^ la * 2 ^ j := by rw [hlq]; exact pow_add 2 la j
      _ ≤ a * 2 ^ j := Nat.mul_le_mul_right _ hA

theorem F64.roundQuot_pos {a q : Nat} (ha : 0 < a) (hq : 0 < q) : 0 < (F64.roundQuot a q).1 := by
  have hlog := F64.geScaled_log2 ha hq
  unfold F64.roundQuot
  generalize (F64.log2Fuel a a : Int) - (F64.log2Fuel q q : Int) = e0 at hlog ⊢
  have he : ∃ e : Int, (if F64.geScaled a q e0 = true then e0 else e0 - 1) = e ∧
      F64.geScaled a q e = true := by
    by_cases hg : F64.geScaled a q e0 = true
    · exact ⟨e0, by simp [hg], hg⟩
    · exact ⟨e0 - 1, by simp [hg], hlog⟩
  obtain ⟨e, hee, hge⟩ := he
  simp only [hee]
  have hs := F64.geScaled_mono hge (show -(52 - e) ≤ e by omega)
  generalize (52 : Int) - e = s at hs ⊢
  have hND : (if 0 ≤ s then q else q * 2 ^ (-s).toNat)
      ≤ (if 0 ≤ s then a * 2 ^ s.toNat else a) := by
    unfold F64.geScaled at hs
    by_cases h0 : 0 ≤ s
    · simp only [h0, if_true]
      by_cases h1 : 0 ≤ -s
      · have hs0 : s = 0 := by omega
        subst hs0
        simpa using hs
      · simpa [h1] using hs
    · have h1 : 0 ≤ -s := by omega
      simpa [h0, h1] using hs
  have hD : 0 < (if 0 ≤ s then q else q * 2 ^ (-s).toNat) := by
    split
    · exact hq
    · exact Nat.mul_pos hq (Nat.two_pow_pos _)
  generalize (if 0 ≤ s then q else q * 2 ^ (-s).toNat) = D at hND hD ⊢
  generalize (if 0 ≤ s then a * 2 ^ s.toNat else a) = N at hND ⊢
  have hm0 : 0 < N / D := Nat.div_pos hND hD
  split
  · omega
  · split <;> omega

theorem F64.toRat_neg {m : Nat} (s : Int) (hm : 0 < m) :
    (F64.toRat { neg := true, m := m, s := s }) < 0 := by
  have hm' : (0 : Rat) < (m : Rat) := by exact_mod_cast hm
  unfold F64.toRat
  by_cases hs : 0 ≤ s
  · simp only [hs, if_true]
    have : (0 : Rat) < (m : Rat) / 2 ^ s.toNat := div_pos hm' (by positivity)
    linarith
  · simp only [hs, if_false, if_true]
    have : (0 : Rat) < (m : Rat) * 2 ^ (-s).toNat := mul_pos hm' (by positivity)
    linarith

theorem F64.ofInt_1000 : F64.ofInt 1000 = { neg := false, m := 8796093022208000, s := 43 } := by
  decide

theorem ratioOf_500000 : ratioOf 500000 = 500 := by
  have h : F64.div (F64.ofInt 500000) (F64.ofInt 1000)
      = { neg := false, m := 8796093022208000, s := 44 } := by decide
  rw [ratioOf, h]
  norm_num [F64.toRat, Int.toNat]

theorem ratioOf_1500 : ratioOf 1500 = 3 / 2 := by
  have h : F64.div (F64.ofInt 1500) (F64.ofInt 1000)
      = { neg := false, m := 6755399441055744, s := 52 } := by decide
  rw [ratioOf, h]
  norm_num [F64.toRat, Int.toNat]

theorem ratioOf_0 : ratioOf 0 = 0 := by
  have h : F64.div (F64.ofInt 0) (F64.ofInt 1000) = { neg := false, m := 0, s := 0 } := by decide
  rw [ratioOf, h]
  norm_num [F64.toRat]

theorem ratioOf_1 : ratioOf 1 = 1152921504606847 / 1152921504606846976 := by
  have h : F64.div (F64.ofInt 1) (F64.ofInt 1000)
      = { neg := false, m := 4611686018427388, s := 62 } := by decide
  rw [ratioOf, h]
  norm_num [F64.toRat, Int.toNat]

theorem ratioOf_large : ratioOf 9007199254740993000 = 9007199254740994 := by
  have h : F64.div (F64.ofInt 9007199254740993000) (F64.ofInt 1000)
      = { neg := false, m := 4503599627370497, s := -1 } := by decide
  rw [ratioOf, h]
  norm_num [F64.toRat, Int.toNat]

theorem ratioOf_neg {r : Int} (hr : r < 0) : ratioOf r < 0 := by
  have hx : F64.ofInt r
      = F64.mk true (F64.roundQuot r.natAbs 1).1 (F64.roundQuot r.natAbs 1).2 := by
    simp [F64.ofInt, ne_of_lt hr, hr]
  have hxm : 0 < (F64.roundQuot r.natAbs 1).1 :=
    F64.roundQuot_pos (by omega) (by norm_num)
  have hq := F64.roundQuot_pos hxm (show 0 < 8796093022208000 by norm_num)
  unfold ratioOf
  rw [F64.ofInt_1000, hx]
  have hd : F64.div (F64.mk true (F64.roundQuot r.natAbs 1).1 (F64.roundQuot r.natAbs 1).2)
        (F64.mk false 8796093022208000 43)
      = F64.mk true (F64.roundQuot (F64.roundQuot r.natAbs 1).1 8796093022208000).1
          ((F64.roundQuot (F64.roundQuot r.natAbs 1).1 8796093022208000).2
            + (F64.roundQuot r.natAbs 1).2 - 43) := by
    simp [F64.div, Nat.pos_iff_ne_zero.mp hxm]
  rw [hd]
  exact F64.toRat_neg _ hq

/-! ## GetTorrent on well-formed listings -/

theorem getTorrent_fill_of_entryOk {d : List Value}
    (h : entryOk GetTorrent.schema d = true) :
    GetTorrent.fill (entryStr d 0) d = Exec.done (GetTorrent.record d) := by
  simp [GetTorrent.fill, GetTorrent.record,
    indexInt_of_entryOk h (i := 1) rfl, indexInt_of_entryOk h (i := 2) rfl,
    indexInt_of_entryOk h (i := 3) rfl, indexInt_of_entryOk h (i := 4) rfl,
    indexInt_of_entryOk h (i := 5) rfl, indexInt_of_entryOk h (i := 6) rfl,
    indexInt_of_entryOk h (i := 7) rfl, indexInt_of_entryOk h (i := 8) rfl,
    indexString_of_entryOk h (i := 9) rfl, indexString_of_entryOk h (i := 10) rfl,
    indexInt_of_entryOk h (i := 11) rfl, indexInt_of_entryOk h (i := 12) rfl,
    indexInt_of_entryOk h (i := 13) rfl, indexInt_of_entryOk h (i := 14) rfl,
    indexInt_of_entryOk h (i := 15) rfl, indexInt_of_entryOk h (i := 16) rfl]

theorem getTorrent_inner_of_wf (t : Torrent) : ∀ (inners : List Value),
    inners.all (fun e => e.isArray && entryOk GetTorrent.schema e.elems) = true →
    GetTorrent.inner t inners =
      Exec.done (((inners.map Value.elems).find? (hashIs t.Hash)).map GetTorrent.record)
  | [], _ => rfl
  | e :: rest, h => by
    simp only [List.all_cons, Bool.and_eq_true] at h
    obtain ⟨⟨harr, hok⟩, hrest⟩ := h
    cases e <;> simp [Value.isArray] at harr
    rename_i d
    simp only [Value.elems] at hok
    have ih := getTorrent_inner_of_wf t rest hrest
    by_cases hm : entryStr d 0 = t.Hash
    · have hf := getTorrent_fill_of_entryOk hok
      rw [hm] at hf
      simp [GetTorrent.inner, Value.assertArray, indexString_of_entryOk hok (i := 0) rfl, hm, hf,
        Value.elems, hashIs, List.find?]
    · simp [GetTorrent.inner, Value.assertArray, indexString_of_entryOk hok (i := 0) rfl, hm, ih,
        Value.elems, hashIs, List.find?]

theorem getTorrent_outer_of_wf (t : Torrent) : ∀ (outers : List Value),
    outers.all (fun outer =>
      outer.isArray && outer.elems.all (fun e => e.isArray && entryOk GetTorrent.schema e.elems))
      = true →
    GetTorrent.outer t outers =
      Exec.done ((((outers.flatMap Value.elems).map Value.elems).find? (hashIs t.Hash)).map
        GetTorrent.record)
  | [], _ => rfl
  | o :: rest, h => by
    simp only [List.all_cons, Bool.and_eq_true] at h
    obtain ⟨⟨harr, hok⟩, hrest⟩ := h
    cases o <;> simp [Value.isArray] at harr
    rename_i inners
    simp only [Value.elems] at hok
    have ih := getTorrent_outer_of_wf t rest hrest
    have hin := getTorrent_inner_of_wf t inners hok
    cases hfind : (inners.map Value.elems).find? (hashIs t.Hash) with
    | none =>
      simp [GetTorrent.outer, Value.assertArray, hin, hfind, ih, Value.elems, List.find?_append]
    | some d =>
      simp [GetTorrent.outer, Value.assertArray, hin, hfind, Value.elems, List.find?_append]

theorem GetTorrent_of_wf (c : Client) (t : Torrent) (results : Value)
    (hcall : c.Call "d.multicall2" GetTorrent.args = (results, none))
    (hwf : wellFormed GetTorrent.schema results = true) :
    GetTorrent c t =
      match (entries results).find? (hashIs t.Hash) with
      | some d => Exec.done (GetTorrent.record d, none)
      | none => Exec.done (Torrent.zero, some (GoError.new "torrent not found")) := by
  simp only [wellFormed, Bool.and_eq_true] at hwf
  obtain ⟨harr, hall⟩ := hwf
  cases results <;> simp [Value.isArray] at harr
  rename_i outers
  simp only [Value.elems] at hall
  have hout := getTorrent_outer_of_wf t outers hall
  simp only [GetTorrent, hcall, Value.assertArray, Exec.done_bind, hout, entries, Value.elems]
  cases ((outers.flatMap Value.elems).map Value.elems).find? (hashIs t.Hash) <;> rfl

theorem entryOk_of_mem_entries {schema : List Kind} {results : Value}
    (hwf : wellFormed schema results = true) {d : List Value} (hd : d ∈ entries results) :
    entryOk schema d = true := by
  simp only [wellFormed, Bool.and_eq_true, List.all_eq_true] at hwf
  simp only [entries, List.mem_map, List.mem_flatMap] at hd
  obtain ⟨e, ⟨o, ho, he⟩, rfl⟩ := hd
  exact ((hwf.2 o ho).2 e he).2

/-! ## GetTorrents -/

theorem getTorrents_entry_of_entryOk {d : List Value}
    (h : entryOk GetTorrents.schema d = true) :
    GetTorrents.entry d = Exec.done (GetTorrents.record d) := by
  simp [GetTorrents.entry, GetTorrents.record,
    indexString_of_entryOk h (i := 2) rfl, indexString_of_entryOk h (i := 0) rfl,
    indexString_of_entryOk h (i := 4) rfl, indexInt_of_entryOk h (i := 1) rfl,
    indexInt_of_entryOk h (i := 6) rfl, indexInt_of_entryOk h (i := 7) rfl]

theorem getTorrents_inner_of_wf : ∀ (inners : List Value) (torrents : List Torrent),
    inners.all (fun e => e.isArray && entryOk GetTorrents.schema e.elems) = true →
    GetTorrents.inner inners torrents =
      Exec.done (torrents ++ (inners.map Value.elems).map GetTorrents.record)
  | [], torrents, _ => by simp [GetTorrents.inner]
  | e :: rest, torrents, h => by
    simp only [List.all_cons, Bool.and_eq_true] at h
    obtain ⟨⟨harr, hok⟩, hrest⟩ := h
    cases e <;> simp [Value.isArray] at harr
    rename_i d
    simp only [Value.elems] at hok
    simp [GetTorrents.inner, Value.assertArray, getTorrents_entry_of_entryOk hok,
      getTorrents_inner_of_wf rest _ hrest, Value.elems]

theorem getTorrents_outer_of_wf : ∀ (outers : List Value) (torrents : List Torrent),
    outers.all (fun outer =>
      outer.isArray && outer.elems.all (fun e => e.isArray && entryOk GetTorrents.schema e.elems))
      = true →
    GetTorrents.outer outers torrents =
      Exec.done (torrents ++ ((outers.flatMap Value.elems).map Value.elems).map GetTorrents.record)
  | [], torrents, _ => by simp [GetTorrents.outer]
  | o :: rest, torrents, h => by
    simp only [List.all_cons, Bool.and_eq_true] at h
    obtain ⟨⟨harr, hok⟩, hrest⟩ := h
    cases o <;> simp [Value.isArray] at harr
    rename_i inners
    simp only [Value.elems] at hok
    simp [GetTorrents.outer, Value.assertArray, getTorrents_inner_of_wf inners _ hok,
      getTorrents_outer_of_wf rest _ hrest, Value.elems]

theorem GetTorrents_of_wf (c : Client) (view : String) (results : Value)
    (hcall : c.Call "d.multicall2" (GetTorrents.args view) = (results, none))
    (hwf : wellFormed GetTorrents.schema results = true) :
    GetTorrents c view = Exec.done ((entries results).map GetTorrents.record, none) := by
  simp only [wellFormed, Bool.and_eq_true] at hwf
  obtain ⟨harr, hall⟩ := hwf
  cases results <;> simp [Value.isArray] at harr
  rename_i outers
  simp only [Value.elems] at hall
  simp [GetTorrents, hcall, Value.assertArray, getTorrents_outer_of_wf outers [] hall, entries,
    Value.elems]

/-- When the composite literal of `GetTorrents` is built, all six reads succeeded. -/
theorem getTorrents_entry_done {d : List Value} {t : Torrent}
    (h : GetTorrents.entry d = Exec.done t) :
    ∃ hash name path size completed ratio,
      indexString d 2 = Exec.done hash ∧ indexString d 0 = Exec.done name ∧
      indexString d 4 = Exec.done path ∧ indexInt d 1 = Exec.done size ∧
      indexInt d 6 = Exec.done completed ∧ indexInt d 7 = Exec.done ratio := by
  simp only [GetTorrents.entry] at h
  cases h2 : indexString d 2 <;> simp only [h2, Exec.done_bind, Exec.panicked_bind] at h
  · cases h
  cases h0 : indexString d 0 <;> simp only [h0, Exec.done_bind, Exec.panicked_bind] at h
  · cases h
  cases h4 : indexString d 4 <;> simp only [h4, Exec.done_bind, Exec.panicked_bind] at h
  · cases h
  cases h1 : indexInt d 1 <;> simp only [h1, Exec.done_bind, Exec.panicked_bind] at h
  · cases h
  cases h6 : indexInt d 6 <;> simp only [h6, Exec.done_bind, Exec.panicked_bind] at h
  · cases h
  cases h7 : indexInt d 7 <;> simp only [h7, Exec.done_bind, Exec.panicked_bind] at h
  · cases h
  exact ⟨_, _, _, _, _, _, rfl, rfl, rfl, rfl, rfl, rfl⟩

theorem getTorrents_inner_panics : ∀ (inners : List Value) (torrents : List Torrent)
    (d : List Value), Value.array d ∈ inners → (∀ t, GetTorrents.entry d ≠ Exec.done t) →
    ∃ p, GetTorrents.inner inners torrents = Exec.panicked p
  | [], _, _, hmem, _ => by simp at hmem
  | e :: rest, torrents, d, hmem, hbad => by
    cases e with
    | array d0 =>
      cases hd0 : GetTorrents.entry d0 with
      | panicked p => exact ⟨p, by simp [GetTorrents.inner, Value.assertArray, hd0]⟩
      | done t0 =>
        rcases List.mem_cons.mp hmem with heq | hrest
        · cases heq
          exact absurd hd0 (hbad t0)
        · obtain ⟨p, hp⟩ := getTorrents_inner_panics rest (torrents ++ [t0]) d hrest hbad
          exact ⟨p, by simp [GetTorrents.inner, Value.assertArray, hd0, hp]⟩
    | _ => exact ⟨Panic.typeAssertion, by simp [GetTorrents.inner, Value.assertArray]⟩

theorem getTorrents_outer_panics : ∀ (outers : List Value) (torrents : List Torrent)
    (inners : List Value), Value.array inners ∈ outers →
    (∀ acc, ∃ p, GetTorrents.inner inners acc = Exec.panicked p) →
    ∃ p, GetTorrents.outer outers torrents = Exec.panicked p
  | [], _, _, hmem, _ => by simp at hmem
  | o :: rest, torrents, inners, hmem, hbad => by
    cases o with
    | array inners0 =>
      cases hin : GetTorrents.inner inners0 torrents with
      | panicked p => exact ⟨p, by simp [GetTorrents.outer, Value.assertArray, hin]⟩
      | done ts =>
        rcases List.mem_cons.mp hmem with heq | hrest
        · cases heq
          obtain ⟨p, hp⟩ := hbad torrents
          rw [hp] at hin
          cases hin
        · obtain ⟨p, hp⟩ := getTorrents_outer_panics rest ts inners hrest hbad
          exact ⟨p, by simp [GetTorrents.outer, Value.assertArray, hin, hp]⟩
    | _ => exact ⟨Panic.typeAssertion, by simp [GetTorrents.outer, Value.assertArray]⟩

/-- One entry that cannot be decoded makes the whole of `GetTorrents` panic. -/
theorem GetTorrents_panics (c : Client) (view : String) (outers inners d : List Value)
    (hcall : c.Call "d.multicall2" (GetTorrents.args view) = (Value.array outers, none))
    (hin : Value.array inners ∈ outers) (hd : Value.array d ∈ inners)
    (hbad : ∀ t, GetTorrents.entry d ≠ Exec.done t) :
    ∃ p, GetTorrents c view = Exec.panicked p := by
  obtain ⟨p, hp⟩ := getTorrents_outer_panics outers [] inners hin
    (fun acc => getTorrents_inner_panics inners acc d hd hbad)
  exact ⟨p, by simp [GetTorrents, hcall, Value.assertArray, hp]⟩

theorem indexInt_done_lt {d : List Value} {i : Nat} {n : Int}
    (h : indexInt d i = Exec.done n) : d[i]? = some (Value.int n) := by
  simp only [indexInt, index] at h
  cases hv : d[i]? with
  | none => simp [hv] at h
  | some v =>
    cases v <;> simp [hv, Value.assertInt] at h
    simp [h]

/-! ## GetTorrents on entries with a floating size or ratio -/

theorem indexString_of_hasKind {d : List Value} {i : Nat}
    (h : (d[i]?.getD Value.nil).hasKind Kind.str = true) :
    indexString d i = Exec.done (entryStr d i) := by
  cases hv : d[i]? with
  | none => simp [hv, Value.hasKind] at h
  | some v =>
    cases v <;> simp [hv, Value.hasKind] at h
    simp [indexString, index, hv, entryStr, Value.assertString, Value.toStr]

theorem indexInt_of_hasKind {d : List Value} {i : Nat}
    (h : (d[i]?.getD Value.nil).hasKind Kind.int = true) :
    indexInt d i = Exec.done (entryInt d i) := by
  cases hv : d[i]? with
  | none => simp [hv, Value.hasKind] at h
  | some v =>
    cases v <;> simp [hv, Value.hasKind] at h
    simp [indexInt, index, hv, entryInt, Value.assertInt, Value.toInt]

theorem indexInt_of_isNumber {d : List Value} {i : Nat}
    (h : (d[i]?.getD Value.nil).isNumber = true) :
    indexInt d i = Exec.done (entryInt d i) ∨
      indexInt d i = Exec.panicked Panic.typeAssertion := by
  cases hv : d[i]? with
  | none => simp [hv, Value.isNumber] at h
  | some v =>
    cases v <;> simp [hv, Value.isNumber] at h
    · left
      simp [indexInt, index, hv, entryInt, Value.assertInt, Value.toInt]
    · right
      simp [indexInt, index, hv, Value.assertInt]

theorem indexInt_of_double {d : List Value} {i : Nat} {x : Rat}
    (h : d[i]? = some (Value.double x)) :
    indexInt d i = Exec.panicked Panic.typeAssertion := by
  simp [indexInt, index, h, Value.assertInt]

theorem getTorrents_entry_either {d : List Value}
    (h : GetTorrents.entryOkEitherNumeric d = true) :
    (∃ t, GetTorrents.entry d = Exec.done t) ∨
      GetTorrents.entry d = Exec.panicked Panic.typeAssertion := by
  simp only [GetTorrents.entryOkEitherNumeric, Bool.and_eq_true] at h
  obtain ⟨⟨⟨⟨⟨⟨⟨⟨_, k0⟩, k1⟩, k2⟩, _⟩, k4⟩, _⟩, k6⟩, k7⟩ := h
  have h2 := indexString_of_hasKind k2
  have h0 := indexString_of_hasKind k0
  have h4 := indexString_of_hasKind k4
  have h6 := indexInt_of_hasKind k6
  rcases indexInt_of_isNumber k1 with h1 | h1
  · rcases indexInt_of_isNumber k7 with h7 | h7
    · left
      exact ⟨GetTorrents.record d,
        by simp [GetTorrents.entry, GetTorrents.record, h2, h0, h4, h1, h6, h7]⟩
    · right
      simp [GetTorrents.entry, h2, h0, h4, h1, h6, h7]
  · right
    simp [GetTorrents.entry, h2, h0, h4, h1]

theorem getTorrents_entry_double {d : List Value} {x : Rat}
    (h : GetTorrents.entryOkEitherNumeric d = true)
    (hdbl : d[1]? = some (Value.double x) ∨ d[7]? = some (Value.double x)) :
    GetTorrents.entry d = Exec.panicked Panic.typeAssertion := by
  rcases getTorrents_entry_either h with ⟨t, ht⟩ | hp
  · obtain ⟨_, _, _, size, _, ratio, _, _, _, h1, _, h7⟩ := getTorrents_entry_done ht
    rcases hdbl with hd | hd
    · rw [indexInt_of_double hd] at h1
      cases h1
    · rw [indexInt_of_double hd] at h7
      cases h7
  · exact hp

theorem getTorrents_inner_either : ∀ (inners : List Value) (torrents : List Torrent),
    inners.all (fun e => e.isArray && GetTorrents.entryOkEitherNumeric e.elems) = true →
    (∃ ts, GetTorrents.inner inners torrents = Exec.done ts) ∨
      GetTorrents.inner inners torrents = Exec.panicked Panic.typeAssertion
  | [], torrents, _ => Or.inl ⟨torrents, rfl⟩
  | e :: rest, torrents, h => by
    simp only [List.all_cons, Bool.and_eq_true] at h
    obtain ⟨⟨harr, hok⟩, hrest⟩ := h
    cases e <;> simp [Value.isArray] at harr
    rename_i d0
    simp only [Value.elems] at hok
    rcases getTorrents_entry_either hok with ⟨t0, ht0⟩ | hp
    · rcases getTorrents_inner_either rest (torrents ++ [t0]) hrest with ⟨ts, hts⟩ | hp
      · exact Or.inl ⟨ts, by simp [GetTorrents.inner, Value.assertArray, ht0, hts]⟩
      · exact Or.inr (by simp [GetTorrents.inner, Value.assertArray, ht0, hp])
    · exact Or.inr (by simp [GetTorrents.inner, Value.assertArray, hp])

theorem getTorrents_inner_double : ∀ (inners : List Value) (torrents : List Torrent)
    (d : List Value),
    inners.all (fun e => e.isArray && GetTorrents.entryOkEitherNumeric e.elems) = true →
    Value.array d ∈ inners → GetTorrents.entry d = Exec.panicked Panic.typeAssertion →
    GetTorrents.inner inners torrents = Exec.panicked Panic.typeAssertion
  | [], _, _, _, hmem, _ => by simp at hmem
  | e :: rest, torrents, d, h, hmem, hbad => by
    simp only [List.all_cons, Bool.and_eq_true] at h
    obtain ⟨⟨harr, hok⟩, hrest⟩ := h
    cases e <;> simp [Value.isArray] at harr
    rename_i d0
    simp only [Value.elems] at hok
    rcases getTorrents_entry_either hok with ⟨t0, ht0⟩ | hp
    · rcases List.mem_cons.mp hmem with heq | hin
      · cases heq
        rw [hbad] at ht0
        cases ht0
      · have ih := getTorrents_inner_double rest (torrents ++ [t0]) d hrest hin hbad
        simp [GetTorrents.inner, Value.assertArray, ht0, ih]
    · simp [GetTorrents.inner, Value.assertArray, hp]

theorem getTorrents_outer_double : ∀ (outers : List Value) (torrents : List Torrent)
    (inners d : List Value),
    outers.all (fun outer => outer.isArray && outer.elems.all (fun e =>
      e.isArray && GetTorrents.entryOkEitherNumeric e.elems)) = true →
    Value.array inners ∈ outers → Value.array d ∈ inners →
    GetTorrents.entry d = Exec.panicked Panic.typeAssertion →
    GetTorrents.outer outers torrents = Exec.panicked Panic.typeAssertion
  | [], _, _, _, _, hmem, _, _ => by simp at hmem
  | o :: rest, torrents, inners, d, h, hmem, hd, hbad => by
    simp only [List.all_cons, Bool.and_eq_true] at h
    obtain ⟨⟨harr, hok⟩, hrest⟩ := h
    cases o <;> simp [Value.isArray] at harr
    rename_i inners0
    simp only [Value.elems] at hok
    rcases getTorrents_inner_either inners0 torrents hok with ⟨ts, hts⟩ | hp
    · rcases List.mem_cons.mp hmem with heq | hin
      · cases heq
        rw [getTorrents_inner_double inners torrents d hok hd hbad] at hts
        cases hts
      · have ih := getTorrents_outer_double rest ts inners d hrest hin hd hbad
        simp [GetTorrents.outer, Value.assertArray, hts, ih]
    · simp [GetTorrents.outer, Value.assertArray, hp]

/-! ## Accessors -/

/-- Apart from the empty array, no result makes an integer accessor panic. -/
theorem intMetric_returns (c : Client) (method : String) (h : (c.Call method []).1 ≠ Value.array []) :
    (intMetric c method).isPanic = false := by
  unfold intMetric
  rcases hc : c.Call method [] with ⟨result, err⟩
  rw [hc] at h
  cases err with
  | some e => rfl
  | none =>
    cases result with
    | array totals =>
      cases totals with
      | nil => exact absurd rfl h
      | cons v rest => cases v <;> simp [index, Exec.isPanic]
    | _ => rfl

/-- Apart from the empty array, no result makes a string accessor panic. -/
theorem stringProperty_returns (c : Client) (method : String)
    (h : (c.Call method []).1 ≠ Value.array []) :
    (stringProperty c method).isPanic = false := by
  unfold stringProperty
  rcases hc : c.Call method [] with ⟨result, err⟩
  rw [hc] at h
  cases err with
  | some e => rfl
  | none =>
    cases result with
    | array ips =>
      cases ips with
      | nil => exact absurd rfl h
      | cons v rest => cases v <;> simp [index, Exec.isPanic]
    | _ => rfl

/-! ## Commands -/

theorem hashCommand_calls (c : Client) (method : String) (t : Torrent) :
    (hashCommand c method t).calls = [⟨method, [.str t.Hash]⟩] := by
  unfold hashCommand
  split <;> rfl

theorem wrapRan_calls (r : Ran) (msg : String) : (wrapRan r msg).calls = r.calls := by
  unfold wrapRan
  split <;> rfl

/-! ## GetFiles and skipAllFiles -/

theorem getFiles_entry_of_entryOk (i : Nat) {d : List Value}
    (h : entryOk GetFiles.schema d = true) :
    GetFiles.entry i d = Exec.done (GetFiles.record i d) := by
  simp [GetFiles.entry, GetFiles.record,
    indexString_of_entryOk h (i := 0) rfl, indexInt_of_entryOk h (i := 1) rfl,
    indexInt_of_entryOk h (i := 2) rfl, indexInt_of_entryOk h (i := 3) rfl,
    indexInt_of_entryOk h (i := 4) rfl]

theorem getFiles_inner_of_wf : ∀ (inners : List Value) (i : Nat) (files : List File),
    inners.all (fun e => e.isArray && entryOk GetFiles.schema e.elems) = true →
    GetFiles.inner inners i files = Exec.done (files ++ GetFiles.recordsFrom i inners)
  | [], _, files, _ => by simp [GetFiles.inner, GetFiles.recordsFrom]
  | e :: rest, i, files, h => by
    simp only [List.all_cons, Bool.and_eq_true] at h
    obtain ⟨⟨harr, hok⟩, hrest⟩ := h
    cases e <;> simp [Value.isArray] at harr
    rename_i d
    simp only [Value.elems] at hok
    simp [GetFiles.inner, Value.assertArray, getFiles_entry_of_entryOk i hok,
      getFiles_inner_of_wf rest _ _ hrest, Value.elems, GetFiles.recordsFrom]

theorem getFiles_outer_of_wf : ∀ (outers : List Value) (files : List File),
    outers.all (fun outer =>
      outer.isArray && outer.elems.all (fun e => e.isArray && entryOk GetFiles.schema e.elems))
      = true →
    GetFiles.outer outers files =
      Exec.done (files ++ outers.flatMap (fun o => GetFiles.recordsFrom 0 o.elems))
  | [], files, _ => by simp [GetFiles.outer]
  | o :: rest, files, h => by
    simp only [List.all_cons, Bool.and_eq_true] at h
    obtain ⟨⟨harr, hok⟩, hrest⟩ := h
    cases o <;> simp [Value.isArray] at harr
    rename_i inners
    simp only [Value.elems] at hok
    simp [GetFiles.outer, Value.assertArray, getFiles_inner_of_wf inners 0 _ hok,
      getFiles_outer_of_wf rest _ hrest, Value.elems]

theorem GetFiles_of_wf (c : Client) (t : Torrent) (results : Value)
    (hcall : c.Call "f.multicall" (GetFiles.args t) = (results, none))
    (hwf : wellFormed GetFiles.schema results = true) :
    GetFiles c t =
      Exec.done (results.elems.flatMap (fun o => GetFiles.recordsFrom 0 o.elems), none) := by
  simp only [wellFormed, Bool.and_eq_true] at hwf
  obtain ⟨harr, hall⟩ := hwf
  cases results <;> simp [Value.isArray] at harr
  rename_i outers
  simp only [Value.elems] at hall
  simp [GetFiles, hcall, Value.assertArray, getFiles_outer_of_wf outers [] hall, Value.elems]

theorem recordsFrom_length : ∀ (i : Nat) (inners : List Value),
    (GetFiles.recordsFrom i inners).length = inners.length
  | _, [] => rfl
  | i, _ :: rest => by simp [GetFiles.recordsFrom, recordsFrom_length (i + 1) rest]

theorem recordsFrom_index : ∀ (i : Nat) (inners : List Value),
    (GetFiles.recordsFrom i inners).map File.Index
      = (List.range' i inners.length).map (fun k : Nat => (k : Int))
  | _, [] => by simp [GetFiles.recordsFrom]
  | i, _ :: rest => by
    simp [GetFiles.recordsFrom, List.range'_succ, recordsFrom_index (i + 1) rest,
      GetFiles.record]

theorem recordsFrom_getElem? : ∀ (i : Nat) (inners : List Value) (k : Nat) (f : File),
    (GetFiles.recordsFrom i inners)[k]? = some f → f.Index = ((i + k : Nat) : Int)
  | _, [], k, f, h => by simp [GetFiles.recordsFrom] at h
  | i, e :: rest, 0, f, h => by
    simp [GetFiles.recordsFrom] at h
    subst h
    simp [GetFiles.record]
  | i, e :: rest, k + 1, f, h => by
    simp [GetFiles.recordsFrom] at h
    have := recordsFrom_getElem? (i + 1) rest k f h
    rw [this]
    congr 1
    omega

theorem SetFilePrority_calls (c : Client) (t : Torrent) (i p : Int) :
    (SetFilePrority c t i p).calls
      = [⟨"f.priority.set", [.str (t.Hash ++ ":f" ++ toString i), .int p]⟩] := by
  unfold SetFilePrority
  split <;> rfl

/-- The calls the loop of `skipAllFiles` issues are an initial part of: one
`f.priority.set` per list position, with the position as file index. -/
theorem skipAllFiles_loop_calls (g : Globals) : ∀ (files : List File) (i : Nat),
    (skipAllFiles.loop g files i).calls
      <+: (List.range' i files.length).map (fun k : Nat => setPriorityCall g.hash (k : Int))
  | [], _ => by simp [skipAllFiles.loop]
  | _ :: rest, i => by
    have hc := SetFilePrority_calls g.conn { Torrent.zero with Hash := g.hash } (i : Int) 0
    simp only [skipAllFiles.loop, List.length_cons, List.range'_succ, List.map_cons]
    split
    · rw [hc]
      exact ⟨_, rfl⟩
    · rw [hc]
      obtain ⟨tl, htl⟩ := skipAllFiles_loop_calls g rest (i + 1)
      exact ⟨tl, by simp [htl, setPriorityCall]⟩

/-- When no call fails, the loop of `skipAllFiles` issues one call per list position. -/
theorem skipAllFiles_loop_calls_of_ok (g : Globals) : ∀ (files : List File) (i : Nat),
    (skipAllFiles.loop g files i).err = none →
    (skipAllFiles.loop g files i).calls
      = (List.range' i files.length).map (fun k : Nat => setPriorityCall g.hash (k : Int))
  | [], _, _ => by simp [skipAllFiles.loop]
  | _ :: rest, i, h => by
    have hc := SetFilePrority_calls g.conn { Torrent.zero with Hash := g.hash } (i : Int) 0
    simp only [skipAllFiles.loop, List.length_cons, List.range'_succ, List.map_cons] at h ⊢
    split at h
    · simp at h
    · rename_i hnone
      simp only [hnone]
      rw [hc, skipAllFiles_loop_calls_of_ok g rest (i + 1) h]
      simp [setPriorityCall]

/-! ## Claims -/

/-- C1. Lookup miss: when the `d.multicall2` call succeeds with a well-formed listing (every
entry an array of 17 elements of the expected cases) in which no entry has the requested hash
as element 0, `GetTorrent` returns normally with the error `torrent not found`, not with
a nil error. -/
theorem GetTorrent_miss_not_found (c : Client) (t : Torrent) (results : Value)
    (hcall : c.Call "d.multicall2" GetTorrent.args = (results, none))
    (hwf : wellFormed GetTorrent.schema results = true)
    (hmiss : ∀ d ∈ entries results, entryStr d 0 ≠ t.Hash) :
    GetTorrent c t = Exec.done (Torrent.zero, some (GoError.new "torrent not found")) := by
  have hnone : (entries results).find? (hashIs t.Hash) = none := by
    simp only [List.find?_eq_none, hashIs, decide_eq_true_eq]
    exact hmiss
  rw [GetTorrent_of_wf c t results hcall hwf, hnone]

/-- Witness for C1: the empty listing, and a listing of two torrents neither of which is
the one asked for. -/
theorem GetTorrent_miss_not_found_witness :
    GetTorrent (stubClient (.array [.array []])) { Torrent.zero with Hash := "zzz" }
        = Exec.done (Torrent.zero, some (GoError.new "torrent not found")) ∧
    GetTorrent (stubClient (.array [.array [sampleEntry "abc" "a" 1500, sampleEntry "def" "b" 0]]))
        { Torrent.zero with Hash := "zzz" }
        = Exec.done (Torrent.zero, some (GoError.new "torrent not found")) :=
  ⟨GetTorrent_miss_not_found _ _ (.array [.array []]) rfl rfl (by simp [entries, Value.elems]),
   GetTorrent_miss_not_found _ _
     (.array [.array [sampleEntry "abc" "a" 1500, sampleEntry "def" "b" 0]]) rfl rfl
     (by simp [entries, Value.elems, sampleEntry, entryStr, Value.toStr, Torrent.zero])⟩

/-- C2. Lookup hit: when the `d.multicall2` call succeeds with a well-formed listing that has
an entry whose element 0 is the requested hash, `GetTorrent` returns a nil error and the
record of the first such entry in wire order (outer arrays first, then inner); entries after
it play no part, and the record's `Hash` is the requested hash. -/
theorem GetTorrent_hit_first (c : Client) (t : Torrent) (results : Value)
    (hcall : c.Call "d.multicall2" GetTorrent.args = (results, none))
    (hwf : wellFormed GetTorrent.schema results = true)
    (hhit : ∃ e ∈ entries results, entryStr e 0 = t.Hash) :
    ∃ pre d post, entries results = pre ++ d :: post ∧
      (∀ e ∈ pre, entryStr e 0 ≠ t.Hash) ∧ entryStr d 0 = t.Hash ∧
      GetTorrent c t = Exec.done (GetTorrent.record d, none) ∧
      (GetTorrent.record d).Hash = t.Hash := by
  cases hfind : (entries results).find? (hashIs t.Hash) with
  | none =>
    obtain ⟨e, he, hm⟩ := hhit
    simp only [List.find?_eq_none, hashIs, decide_eq_true_eq] at hfind
    exact absurd hm (hfind e he)
  | some d =>
    obtain ⟨hd, pre, post, hsplit, hpre⟩ := List.find?_eq_some.mp hfind
    simp only [hashIs, decide_eq_true_eq] at hd
    refine ⟨pre, d, post, hsplit, ?_, hd, ?_, hd⟩
    · intro e he
      have := hpre e he
      simpa [hashIs] using this
    · rw [GetTorrent_of_wf c t results hcall hwf, hfind]

/-- Witness for C2: two entries carry the hash `abc`; the first one is returned. -/
theorem GetTorrent_hit_first_witness :
    ∃ pre d post,
      entries (.array [.array [sampleEntry "def" "b" 0, sampleEntry "abc" "first" 1500,
        sampleEntry "abc" "second" 7]]) = pre ++ d :: post ∧
      (∀ e ∈ pre, entryStr e 0 ≠ "abc") ∧ entryStr d 0 = "abc" ∧
      GetTorrent (stubClient (.array [.array [sampleEntry "def" "b" 0,
        sampleEntry "abc" "first" 1500, sampleEntry "abc" "second" 7]]))
        { Torrent.zero with Hash := "abc" } = Exec.done (GetTorrent.record d, none) ∧
      (GetTorrent.record d).Hash = "abc" :=
  GetTorrent_hit_first (stubClient (.array [.array [sampleEntry "def" "b" 0,
      sampleEntry "abc" "first" 1500, sampleEntry "abc" "second" 7]]))
    { Torrent.zero with Hash := "abc" } _ rfl rfl
    ⟨(sampleEntry "abc" "first" 1500).elems, by simp [entries, Value.elems, sampleEntry], rfl⟩

/-- C3. Positional projection: when the `d.multicall2` call succeeds with a well-formed
listing, `GetTorrents` returns a nil error and exactly one record per entry, in wire
order, and the record of entry `e` has `Name = e[0]`, `Size = e[1]`, `Hash = e[2]`,
`Path = e[4]`, `Completed = (e[6] > 0)` and `Ratio = e[7] / 1000`, the quotient taken in
`float64` as the code does. -/
theorem GetTorrents_positional (c : Client) (view : String) (results : Value)
    (hcall : c.Call "d.multicall2" (GetTorrents.args view) = (results, none))
    (hwf : wellFormed GetTorrents.schema results = true) :
    GetTorrents c view = Exec.done ((entries results).map GetTorrents.record, none) ∧
    ((entries results).map GetTorrents.record).length = (entries results).length ∧
    ∀ e : List Value,
      (GetTorrents.record e).Name = entryStr e 0 ∧ (GetTorrents.record e).Size = entryInt e 1 ∧
      (GetTorrents.record e).Hash = entryStr e 2 ∧ (GetTorrents.record e).Path = entryStr e 4 ∧
      (GetTorrents.record e).Completed = decide (entryInt e 6 > 0) ∧
      (GetTorrents.record e).Ratio = ratioOf (entryInt e 7) :=
  ⟨GetTorrents_of_wf c view results hcall hwf, by simp,
   fun _ => ⟨rfl, rfl, rfl, rfl, rfl, rfl⟩⟩

/-- Witness for C3: the entry with hash `abc123`, completed 1, ratio 500000 and size 100,
after another entry, decodes to hash `abc123`, completed, ratio 500 and size 100. -/
theorem GetTorrents_positional_witness :
    GetTorrents (stubClient (.array [.array [sampleRow "first" (.int 7) "ffff" 0 (.int 1500),
        sampleRow "ubuntu" (.int 100) "abc123" 1 (.int 500000)]])) "main" =
      Exec.done ([{ Torrent.zero with
                    Name := "first", Size := 7, Hash := "ffff", Path := "/downloads",
                    Completed := false, Ratio := 3 / 2 },
                  { Torrent.zero with
                    Name := "ubuntu", Size := 100, Hash := "abc123", Path := "/downloads",
                    Completed := true, Ratio := 500 }], none) :=
  (GetTorrents_positional (stubClient (.array [.array [sampleRow "first" (.int 7) "ffff" 0
      (.int 1500), sampleRow "ubuntu" (.int 100) "abc123" 1 (.int 500000)]])) "main"
      (.array [.array [sampleRow "first" (.int 7) "ffff" 0 (.int 1500),
        sampleRow "ubuntu" (.int 100) "abc123" 1 (.int 500000)]]) rfl rfl).1.trans
    (by
      simp [entries, Value.elems, sampleRow, GetTorrents.record, entryStr, entryInt, Value.toStr,
        Value.toInt]
      exact ⟨ratioOf_1500, ratioOf_500000⟩)

/-- C4. Schema alignment: when the remote answers the selectors actually sent, in the order
sent, `GetTorrent`, `GetTorrents` and `GetFiles` put into every record field the value of
the selector that requests that field (`Hash` from `d.hash=`, `Ratio` from `d.ratio=`,
`IsMultiFile` from `d.is_multi_file=`, `ChunksCompleted` from `f.completed_chunks=`,
`TotalChunks` from `f.size_chunks=`, and so on). The entry has exactly as many elements as
selectors were sent (17, 8 and 5) and no read panics, so every index is below that number. -/
theorem positions_match_selectors (c1 c2 c3 : Client) (x : Entity) (view : String) (t : Torrent)
    (h1 : c1.Call "d.multicall2" GetTorrent.args = (respond [x] GetTorrent.args, none))
    (h2 : c2.Call "d.multicall2" (GetTorrents.args view)
      = (respond [x] (GetTorrents.args view), none))
    (h3 : c3.Call "f.multicall" (GetFiles.args t) = (respond [x] (GetFiles.args t), none)) :
    GetTorrent c1 { Torrent.zero with Hash := x.strProp "d.hash=" } =
      Exec.done ({ Hash := x.strProp "d.hash=",
                   Completed := decide (x.intProp "d.complete=" > 0),
                   CompletedBytes := x.intProp "d.completed_bytes=",
                   DownRate := x.intProp "d.down.rate=",
                   UpRate := x.intProp "d.up.rate=",
                   Ratio := ratioOf (x.intProp "d.ratio="),
                   Size := x.intProp "d.size_bytes=",
                   State := x.intProp "d.state=",
                   PeersConnected := x.intProp "d.peers_connected=",
                   Name := x.strProp "d.name=",
                   Path := x.strProp "d.base_path=",
                   Hashing := x.intProp "d.hashing=",
                   ChunkSize := x.intProp "d.chunk_size=",
                   PeersNotConnected := x.intProp "d.peers_not_connected=",
                   PeersAccounted := x.intProp "d.peers_accounted=",
                   PeersComplete := x.intProp "d.peers_complete=",
                   IsMultiFile := decide (x.intProp "d.is_multi_file=" > 0) }, none) ∧
    GetTorrents c2 view =
      Exec.done ([{ Torrent.zero with
                    Hash := x.strProp "d.hash=",
                    Name := x.strProp "d.name=",
                    Path := x.strProp "d.base_path=",
                    Size := x.intProp "d.size_bytes=",
                    Completed := decide (x.intProp "d.complete=" > 0),
                    Ratio := ratioOf (x.intProp "d.ratio=") }], none) ∧
    GetFiles c3 t =
      Exec.done ([{ Path := x.strProp "f.path=",
                    Size := x.intProp "f.size_bytes=",
                    Priority := x.intProp "f.priority=",
                    Index := 0,
                    ChunksCompleted := x.intProp "f.completed_chunks=",
                    TotalChunks := x.intProp "f.size_chunks=" }], none) ∧
    (selectorsOf GetTorrent.args).length = 17 ∧
    (selectorsOf (GetTorrents.args view)).length = 8 ∧
    (selectorsOf (GetFiles.args t)).length = 5 := by
  refine ⟨?_, ?_, ?_, rfl, rfl, rfl⟩
  · simp only [GetTorrent, h1]
    simp [respond, selectorsOf, GetTorrent.args, Entity.answer, stringSelectors,
      Value.toStr, Value.assertArray, GetTorrent.outer, GetTorrent.inner, GetTorrent.fill,
      indexInt, indexString, index, Value.assertInt, Value.assertString, Torrent.zero]
  · simp only [GetTorrents, h2]
    simp [respond, selectorsOf, GetTorrents.args, Entity.answer, stringSelectors,
      Value.toStr, Value.assertArray, GetTorrents.outer, GetTorrents.inner, GetTorrents.entry,
      indexInt, indexString, index, Value.assertInt, Value.assertString, Torrent.zero]
  · simp only [GetFiles, h3]
    simp [respond, selectorsOf, GetFiles.args, Entity.answer, stringSelectors,
      Value.toStr, Value.assertArray, GetFiles.outer, GetFiles.inner, GetFiles.entry,
      indexInt, indexString, index, Value.assertInt, Value.assertString]

/-- Witness for C4: the sample entity behind three clients that answer positionally. -/
theorem positions_match_selectors_witness :
    (GetTorrent (stubClient (respond [sampleEntity] GetTorrent.args))
      { Torrent.zero with Hash := sampleEntity.strProp "d.hash=" }) =
      Exec.done ({ Hash := sampleEntity.strProp "d.hash=",
                   Completed := decide (sampleEntity.intProp "d.complete=" > 0),
                   CompletedBytes := sampleEntity.intProp "d.completed_bytes=",
                   DownRate := sampleEntity.intProp "d.down.rate=",
                   UpRate := sampleEntity.intProp "d.up.rate=",
                   Ratio := ratioOf (sampleEntity.intProp "d.ratio="),
                   Size := sampleEntity.intProp "d.size_bytes=",
                   State := sampleEntity.intProp "d.state=",
                   PeersConnected := sampleEntity.intProp "d.peers_connected=",
                   Name := sampleEntity.strProp "d.name=",
                   Path := sampleEntity.strProp "d.base_path=",
                   Hashing := sampleEntity.intProp "d.hashing=",
                   ChunkSize := sampleEntity.intProp "d.chunk_size=",
                   PeersNotConnected := sampleEntity.intProp "d.peers_not_connected=",
                   PeersAccounted := sampleEntity.intProp "d.peers_accounted=",
                   PeersComplete := sampleEntity.intProp "d.peers_complete=",
                   IsMultiFile := decide (sampleEntity.intProp "d.is_multi_file=" > 0) }, none) ∧
    GetFiles (stubClient (respond [sampleEntity] (GetFiles.args Torrent.zero))) Torrent.zero =
      Exec.done ([{ Path := sampleEntity.strProp "f.path=",
                    Size := sampleEntity.intProp "f.size_bytes=",
                    Priority := sampleEntity.intProp "f.priority=",
                    Index := 0,
                    ChunksCompleted := sampleEntity.intProp "f.completed_chunks=",
                    TotalChunks := sampleEntity.intProp "f.size_chunks=" }], none) :=
  ⟨(positions_match_selectors (stubClient (respond [sampleEntity] GetTorrent.args))
      (stubClient (respond [sampleEntity] (GetTorrents.args "main")))
      (stubClient (respond [sampleEntity] (GetFiles.args Torrent.zero)))
      sampleEntity "main" Torrent.zero rfl rfl rfl).1,
   (positions_match_selectors (stubClient (respond [sampleEntity] GetTorrent.args))
      (stubClient (respond [sampleEntity] (GetTorrents.args "main")))
      (stubClient (respond [sampleEntity] (GetFiles.args Torrent.zero)))
      sampleEntity "main" Torrent.zero rfl rfl rfl).2.2.1⟩

/-- C5, as stated, fails: a listing whose second entry has only three elements does not make
`GetTorrents` return an error result; the run ends in an index-out-of-range panic. -/
theorem GetTorrents_short_entry_no_error :
    GetTorrents (stubClient (.array [.array [sampleRow "first" (.int 7) "ffff" 0 (.int 1500),
        .array [.str "n", .int 1, .str "h"]]])) "main" = Exec.panicked Panic.indexOutOfRange ∧
    ¬ ∃ ts err, GetTorrents (stubClient (.array [.array [sampleRow "first" (.int 7) "ffff" 0
        (.int 1500), .array [.str "n", .int 1, .str "h"]]])) "main" = Exec.done (ts, some err) := by
  have h : GetTorrents (stubClient (.array [.array [sampleRow "first" (.int 7) "ffff" 0 (.int 1500),
      .array [.str "n", .int 1, .str "h"]]])) "main" = Exec.panicked Panic.indexOutOfRange := rfl
  refine ⟨h, ?_⟩
  rintro ⟨ts, err, he⟩
  rw [h] at he
  cases he

/-- C5, amended. When the `d.multicall2` call succeeds with an array of arrays in which
some inner entry has fewer elements than the number of field selectors sent, `GetTorrents`
ends in a run-time panic: it returns nothing, neither an error nor any record, not even
those of the entries that precede the short one. -/
theorem GetTorrents_short_entry_panics (c : Client) (view : String)
    (outers inners d : List Value)
    (hcall : c.Call "d.multicall2" (GetTorrents.args view) = (Value.array outers, none))
    (hin : Value.array inners ∈ outers) (hd : Value.array d ∈ inners)
    (hshort : d.length < (selectorsOf (GetTorrents.args view)).length) :
    (∃ p, GetTorrents c view = Exec.panicked p) ∧ ∀ r, GetTorrents c view ≠ Exec.done r := by
  have hbad : ∀ t, GetTorrents.entry d ≠ Exec.done t := by
    intro t ht
    obtain ⟨_, _, _, _, _, ratio, _, _, _, _, _, h7⟩ := getTorrents_entry_done ht
    have h := indexInt_done_lt h7
    have hlt : 7 < d.length := by
      by_contra hge
      rw [List.getElem?_eq_none (by omega)] at h
      cases h
    have hlen : (selectorsOf (GetTorrents.args view)).length = 8 := rfl
    omega
  obtain ⟨p, hp⟩ := GetTorrents_panics c view outers inners d hcall hin hd hbad
  refine ⟨⟨p, hp⟩, ?_⟩
  intro r hr
  rw [hp] at hr
  cases hr

/-- Witness for C5 (amended): a seven-element entry after a well-formed one. -/
theorem GetTorrents_short_entry_panics_witness :
    (∃ p, GetTorrents (stubClient (.array [.array [sampleRow "first" (.int 7) "ffff" 0 (.int 1500),
        .array [.str "n", .int 1, .str "h", .str "", .str "/p", .int 1, .int 1]]])) "main"
        = Exec.panicked p) ∧
    ∀ r, GetTorrents (stubClient (.array [.array [sampleRow "first" (.int 7) "ffff" 0 (.int 1500),
        .array [.str "n", .int 1, .str "h", .str "", .str "/p", .int 1, .int 1]]])) "main"
        ≠ Exec.done r :=
  GetTorrents_short_entry_panics _ "main"
    [.array [sampleRow "first" (.int 7) "ffff" 0 (.int 1500),
      .array [.str "n", .int 1, .str "h", .str "", .str "/p", .int 1, .int 1]]]
    [sampleRow "first" (.int 7) "ffff" 0 (.int 1500),
      .array [.str "n", .int 1, .str "h", .str "", .str "/p", .int 1, .int 1]]
    [.str "n", .int 1, .str "h", .str "", .str "/p", .int 1, .int 1]
    rfl (by simp) (by simp) (by decide)

/-- C6, as stated, fails: when `Unmarshal` hands back a value together with a fault, `Call`
returns a non-nil error and that value alongside it. -/
theorem Call_value_with_fault :
    faultyClient.Call "d.stop" [.str "abc"] =
      (Value.int 1, some (GoError.faultOnly { code := 4, message := "method not found" })) ∧
    (faultyClient.Call "d.stop" [.str "abc"]).1 ≠ Value.nil := by
  refine ⟨rfl, ?_⟩
  show Value.int 1 ≠ Value.nil
  intro h
  cases h

/-- C6, amended. `Call` returns a non-nil error if and only if `Marshal` fails, the POST
fails, `Unmarshal` returns an error, or `Unmarshal` reports a fault. When `Marshal` or the
POST fails the value returned is nil; otherwise the value returned is the one `Unmarshal`
handed back, whether or not there is an error. -/
theorem Call_error_iff (c : Client) (name : String) (args : List Value) :
    ((c.Call name args).2.isSome = true ↔
      (∃ e, c.Marshal name args = .error e) ∨
      (∃ req, c.Marshal name args = .ok req ∧
        ((∃ e, c.Post c.addr req = .error e) ∨
         (∃ body, c.Post c.addr req = .ok body ∧
           ((c.Unmarshal body).err.isSome = true ∨ (c.Unmarshal body).fault.isSome = true))))) ∧
    (∀ e, c.Marshal name args = .error e → (c.Call name args).1 = Value.nil) ∧
    (∀ req e, c.Marshal name args = .ok req → c.Post c.addr req = .error e →
      (c.Call name args).1 = Value.nil) ∧
    (∀ req body, c.Marshal name args = .ok req → c.Post c.addr req = .ok body →
      (c.Call name args).1 = (c.Unmarshal body).val) := by
  refine ⟨?_, ?_, ?_, ?_⟩
  · cases hm : c.Marshal name args with
    | error e => simp [Client.Call, hm]
    | ok req =>
      cases hp : c.Post c.addr req with
      | error e => simp [Client.Call, hm, hp]
      | ok body =>
        cases hf : (c.Unmarshal body).fault with
        | none => simp [Client.Call, hm, hp, hf]
        | some f =>
          cases he : (c.Unmarshal body).err <;> simp [Client.Call, hm, hp, hf, he]
  · intro e hm
    simp [Client.Call, hm]
  · intro req e hm hp
    simp [Client.Call, hm, hp]
  · intro req body hm hp
    cases hf : (c.Unmarshal body).fault with
    | none => simp [Client.Call, hm, hp, hf]
    | some f =>
      cases he : (c.Unmarshal body).err <;> simp [Client.Call, hm, hp, hf, he]

/-- Witness for C6 (amended): a failing `Marshal` gives an error and the nil value. -/
theorem Call_error_iff_witness :
    (brokenClient.Call "d.stop" [.str "abc"]).2.isSome = true ∧
    (brokenClient.Call "d.stop" [.str "abc"]).1 = Value.nil :=
  ⟨(Call_error_iff brokenClient "d.stop" [.str "abc"]).1.mpr (Or.inl ⟨_, rfl⟩),
   (Call_error_iff brokenClient "d.stop" [.str "abc"]).2.1 _ rfl⟩

/-- C7 fails on the code: when the call succeeds with the empty array, each of `DownTotal`,
`DownRate`, `UpTotal`, `UpRate`, `IP` and `Name` ends in an index-out-of-range panic at
`totals[0]`, where the claim expects an error result. -/
theorem accessors_panic_on_empty_array :
    DownTotal (stubClient (.array [])) = Exec.panicked Panic.indexOutOfRange ∧
    DownRate (stubClient (.array [])) = Exec.panicked Panic.indexOutOfRange ∧
    UpTotal (stubClient (.array [])) = Exec.panicked Panic.indexOutOfRange ∧
    UpRate (stubClient (.array [])) = Exec.panicked Panic.indexOutOfRange ∧
    IP (stubClient (.array [])) = Exec.panicked Panic.indexOutOfRange ∧
    Name (stubClient (.array [])) = Exec.panicked Panic.indexOutOfRange :=
  ⟨rfl, rfl, rfl, rfl, rfl, rfl⟩

/-- C8, as stated, fails: an entry whose size, or whose ratio, arrives as a double is not
accepted; `GetTorrents` ends in a type-assertion panic, while the same entry with the
integer representation is decoded. -/
theorem GetTorrents_double_not_accepted :
    GetTorrents (stubClient (.array [.array [sampleRow "ubuntu" (.double 100) "abc123" 1
        (.int 500000)]])) "main" = Exec.panicked Panic.typeAssertion ∧
    GetTorrents (stubClient (.array [.array [sampleRow "ubuntu" (.int 100) "abc123" 1
        (.double 500000)]])) "main" = Exec.panicked Panic.typeAssertion ∧
    (GetTorrents (stubClient (.array [.array [sampleRow "ubuntu" (.int 100) "abc123" 1
        (.int 500000)]])) "main").isPanic = false :=
  ⟨rfl, rfl, rfl⟩

/-- C8, amended. `GetTorrents` accepts only the integer representation at the size and ratio
positions: when the `d.multicall2` call succeeds with an array of arrays in which some entry
has a double at position 1 or at position 7, the value is not normalized; `GetTorrents` ends
in a run-time panic and returns nothing. When the result is otherwise well-formed (every
entry has 8 elements of the expected cases, sizes and ratios in either numeric
representation), that panic is the failed type assertion. -/
theorem GetTorrents_double_panics (c : Client) (view : String)
    (outers inners d : List Value) (x : Rat)
    (hcall : c.Call "d.multicall2" (GetTorrents.args view) = (Value.array outers, none))
    (hin : Value.array inners ∈ outers) (hd : Value.array d ∈ inners)
    (hdbl : d[1]? = some (Value.double x) ∨ d[7]? = some (Value.double x)) :
    (∃ p, GetTorrents c view = Exec.panicked p) ∧ (∀ r, GetTorrents c view ≠ Exec.done r) ∧
    (GetTorrents.wellFormedEitherNumeric (Value.array outers) = true →
      GetTorrents c view = Exec.panicked Panic.typeAssertion) := by
  have hbad : ∀ t, GetTorrents.entry d ≠ Exec.done t := by
    intro t ht
    obtain ⟨_, _, _, size, _, ratio, _, _, _, h1, _, h7⟩ := getTorrents_entry_done ht
    have e1 := indexInt_done_lt h1
    have e7 := indexInt_done_lt h7
    rcases hdbl with h | h
    · rw [h] at e1
      cases e1
    · rw [h] at e7
      cases e7
  obtain ⟨p, hp⟩ := GetTorrents_panics c view outers inners d hcall hin hd hbad
  refine ⟨⟨p, hp⟩, ?_, ?_⟩
  · intro r hr
    rw [hp] at hr
    cases hr
  · intro hwf
    simp only [GetTorrents.wellFormedEitherNumeric, Value.isArray, Value.elems,
      Bool.true_and] at hwf
    have hdok : GetTorrents.entryOkEitherNumeric d = true := by
      rw [List.all_eq_true] at hwf
      have ho := hwf _ hin
      simp only [Value.isArray, Value.elems, Bool.true_and, List.all_eq_true] at ho
      have he := ho _ hd
      simpa [Value.isArray, Value.elems] using he
    have hout := getTorrents_outer_double outers [] inners d hwf hin hd
      (getTorrents_entry_double hdok hdbl)
    simp [GetTorrents, hcall, Value.assertArray, hout]

/-- Witness for C8 (amended): a ratio that arrives as the double 1.5 in an otherwise
well-formed listing; the panic is the failed type assertion. -/
theorem GetTorrents_double_panics_witness :
    (∃ p, GetTorrents (stubClient (.array [.array [sampleRow "ubuntu" (.int 100) "abc123" 1
        (.double (3 / 2))]])) "main" = Exec.panicked p) ∧
    (∀ r, GetTorrents (stubClient (.array [.array [sampleRow "ubuntu" (.int 100) "abc123" 1
        (.double (3 / 2))]])) "main" ≠ Exec.done r) ∧
    GetTorrents (stubClient (.array [.array [sampleRow "ubuntu" (.int 100) "abc123" 1
        (.double (3 / 2))]])) "main" = Exec.panicked Panic.typeAssertion :=
  ⟨(GetTorrents_double_panics
      (stubClient (.array [.array [sampleRow "ubuntu" (.int 100) "abc123" 1
        (.double (3 / 2))]])) "main"
      [.array [sampleRow "ubuntu" (.int 100) "abc123" 1 (.double (3 / 2))]]
      [sampleRow "ubuntu" (.int 100) "abc123" 1 (.double (3 / 2))]
      [.str "ubuntu", .int 100, .str "abc123", .str "", .str "/downloads", .int 1, .int 1,
        .double (3 / 2)]
      (3 / 2) rfl (by simp) (by simp [sampleRow]) (Or.inr rfl)).1,
   (GetTorrents_double_panics
      (stubClient (.array [.array [sampleRow "ubuntu" (.int 100) "abc123" 1
        (.double (3 / 2))]])) "main"
      [.array [sampleRow "ubuntu" (.int 100) "abc123" 1 (.double (3 / 2))]]
      [sampleRow "ubuntu" (.int 100) "abc123" 1 (.double (3 / 2))]
      [.str "ubuntu", .int 100, .str "abc123", .str "", .str "/downloads", .int 1, .int 1,
        .double (3 / 2)]
      (3 / 2) rfl (by simp) (by simp [sampleRow]) (Or.inr rfl)).2.1,
   (GetTorrents_double_panics
      (stubClient (.array [.array [sampleRow "ubuntu" (.int 100) "abc123" 1
        (.double (3 / 2))]])) "main"
      [.array [sampleRow "ubuntu" (.int 100) "abc123" 1 (.double (3 / 2))]]
      [sampleRow "ubuntu" (.int 100) "abc123" 1 (.double (3 / 2))]
      [.str "ubuntu", .int 100, .str "abc123", .str "", .str "/downloads", .int 1, .int 1,
        .double (3 / 2)]
      (3 / 2) rfl (by simp) (by simp [sampleRow]) (Or.inr rfl)).2.2 rfl⟩

/-- C9 fails on the code: the action bound to `stop-torrent` is `stopTorrent`, which for
every hash issues exactly one remote call, `d.start` with that hash, and no `d.stop`;
`StopTorrent`, which issues `d.stop`, is never called by it. -/
theorem stop_torrent_issues_start :
    (∃ act, initApp.action "stop-torrent" = some act ∧
      ∀ g : Globals, (act g).calls = [⟨"d.start", [.str g.hash]⟩] ∧
        ∀ r ∈ (act g).calls, r.name ≠ "d.stop") ∧
    ∀ (c : Client) (t : Torrent), (StopTorrent c t).calls = [⟨"d.stop", [.str t.Hash]⟩] := by
  have hcalls : ∀ g : Globals, (stopTorrent g).calls = [⟨"d.start", [.str g.hash]⟩] := by
    intro g
    rw [stopTorrent, wrapRan_calls, StartTorrent, hashCommand_calls]
  refine ⟨⟨stopTorrent, by simp [initApp.action, initApp.commands], fun g => ⟨hcalls g, ?_⟩⟩, ?_⟩
  · intro r hr
    rw [hcalls g] at hr
    simp only [List.mem_singleton] at hr
    subst hr
    show "d.start" ≠ "d.stop"
    decide
  · intro c t
    rw [StopTorrent, hashCommand_calls]

/-- C10, as stated, fails: the quotient is taken in `float64`, so it is not the exact
rational. For the wire value 1 the `Ratio` that `GetTorrents` and `GetTorrent` produce is
the `float64` nearest to 0.001, which is 1152921504606847 / 2^60 and not 1/1000; for
9007199254740993000 it is 9007199254740994, not 9007199254740993. -/
theorem ratio_not_exact_rational :
    (∃ t, GetTorrents (stubClient (.array [.array [sampleRow "ubuntu" (.int 100) "abc123" 1
        (.int 1)]])) "main" = Exec.done ([t], none) ∧
      t.Ratio = 1152921504606847 / 1152921504606846976 ∧ t.Ratio ≠ (1 : Rat) / 1000) ∧
    (∃ t, GetTorrent (stubClient (.array [.array [sampleEntry "abc" "first" 1]]))
        { Torrent.zero with Hash := "abc" } = Exec.done (t, none) ∧
      t.Ratio = 1152921504606847 / 1152921504606846976 ∧ t.Ratio ≠ (1 : Rat) / 1000) ∧
    ratioOf 9007199254740993000 = 9007199254740994 ∧
    ratioOf 9007199254740993000 ≠ (9007199254740993000 : Rat) / 1000 := by
  have h1 : ratioOf 1 ≠ (1 : Rat) / 1000 := by
    rw [ratioOf_1]
    norm_num
  refine ⟨⟨GetTorrents.record (sampleRow "ubuntu" (.int 100) "abc123" 1 (.int 1)).elems,
      rfl, ratioOf_1, h1⟩,
    ⟨GetTorrent.record (sampleEntry "abc" "first" 1).elems, rfl, ratioOf_1, h1⟩,
    ratioOf_large, ?_⟩
  rw [ratioOf_large]
  norm_num

/-- C10, amended. On well-formed listings the `Ratio` of the record `GetTorrent` returns is
`float64(r) / float64(1000)` for the integer `r` at position 5 of the matching entry, and
the `Ratio` of the k-th record `GetTorrents` returns is `float64(r) / float64(1000)` for
the integer `r` at position 7 of the k-th entry: `r` divided by the fixed constant 1000 and
rounded to the nearest `float64`, whatever the other elements are. 500000 gives 500, 1500
gives 3/2, 0 gives 0 and a negative value gives a negative ratio. -/
theorem ratio_is_float64_quotient (c1 c2 : Client) (t : Torrent) (view : String)
    (results1 results2 : Value) (d : List Value)
    (h1 : c1.Call "d.multicall2" GetTorrent.args = (results1, none))
    (hwf1 : wellFormed GetTorrent.schema results1 = true)
    (hfirst : (entries results1).find? (hashIs t.Hash) = some d)
    (h2 : c2.Call "d.multicall2" (GetTorrents.args view) = (results2, none))
    (hwf2 : wellFormed GetTorrents.schema results2 = true) :
    (∃ ret, GetTorrent c1 t = Exec.done (ret, none) ∧
      ∃ r : Int, d[5]? = some (Value.int r) ∧
        ret.Ratio = (F64.div (F64.ofInt r) (F64.ofInt 1000)).toRat) ∧
    (∃ ts, GetTorrents c2 view = Exec.done (ts, none) ∧
      ∀ (k : Nat) (e : List Value), (entries results2)[k]? = some e →
        ∃ r : Int, e[7]? = some (Value.int r) ∧
          (ts[k]?).map Torrent.Ratio
            = some (F64.div (F64.ofInt r) (F64.ofInt 1000)).toRat) ∧
    (F64.ofInt 1000).toRat = 1000 ∧
    ratioOf 500000 = 500 ∧ ratioOf 1500 = 3 / 2 ∧ ratioOf 0 = 0 ∧
    ∀ r : Int, r < 0 → ratioOf r < 0 := by
  refine ⟨⟨GetTorrent.record d, ?_, entryInt d 5, ?_, rfl⟩,
    ⟨(entries results2).map GetTorrents.record, GetTorrents_of_wf c2 view results2 h2 hwf2, ?_⟩,
    ?_, ratioOf_500000, ratioOf_1500, ratioOf_0, fun r hr => ratioOf_neg hr⟩
  · rw [GetTorrent_of_wf c1 t results1 h1 hwf1, hfirst]
  · exact getElem?_int_of_entryOk
      (entryOk_of_mem_entries hwf1 (List.mem_of_find?_eq_some hfirst)) (i := 5) rfl
  · intro k e hk
    refine ⟨entryInt e 7, ?_, ?_⟩
    · exact getElem?_int_of_entryOk
        (entryOk_of_mem_entries hwf2 (List.getElem?_mem hk)) (i := 7) rfl
    · simp [List.getElem?_map, hk, GetTorrents.record, ratioOf]
  · rw [F64.ofInt_1000]
    norm_num [F64.toRat, Int.toNat]

/-- Witness for C10 (amended): a lookup of `abc` whose entry carries ratio 1500, and a
listing of two torrents. -/
theorem ratio_is_float64_quotient_witness :
    (∃ ret, GetTorrent (stubClient (.array [.array [sampleEntry "def" "b" 0,
        sampleEntry "abc" "first" 1500]])) { Torrent.zero with Hash := "abc" }
        = Exec.done (ret, none) ∧
      ∃ r : Int, (sampleEntry "abc" "first" 1500).elems[5]? = some (Value.int r) ∧
        ret.Ratio = (F64.div (F64.ofInt r) (F64.ofInt 1000)).toRat) ∧
    (∃ ts, GetTorrents (stubClient (.array [.array [sampleRow "first" (.int 7) "ffff" 0
        (.int (-250)), sampleRow "ubuntu" (.int 100) "abc123" 1 (.int 500000)]])) "main"
        = Exec.done (ts, none) ∧
      ∀ (k : Nat) (e : List Value),
        (entries (.array [.array [sampleRow "first" (.int 7) "ffff" 0 (.int (-250)),
          sampleRow "ubuntu" (.int 100) "abc123" 1 (.int 500000)]]))[k]? = some e →
        ∃ r : Int, e[7]? = some (Value.int r) ∧
          (ts[k]?).map Torrent.Ratio
            = some (F64.div (F64.ofInt r) (F64.ofInt 1000)).toRat) ∧
    (F64.ofInt 1000).toRat = 1000 ∧
    ratioOf 500000 = 500 ∧ ratioOf 1500 = 3 / 2 ∧ ratioOf 0 = 0 ∧
    ∀ r : Int, r < 0 → ratioOf r < 0 :=
  ratio_is_float64_quotient
    (stubClient (.array [.array [sampleEntry "def" "b" 0, sampleEntry "abc" "first" 1500]]))
    (stubClient (.array [.array [sampleRow "first" (.int 7) "ffff" 0 (.int (-250)),
      sampleRow "ubuntu" (.int 100) "abc123" 1 (.int 500000)]]))
    { Torrent.zero with Hash := "abc" } "main"
    (.array [.array [sampleEntry "def" "b" 0, sampleEntry "abc" "first" 1500]])
    (.array [.array [sampleRow "first" (.int 7) "ffff" 0 (.int (-250)),
      sampleRow "ubuntu" (.int 100) "abc123" 1 (.int 500000)]])
    (sampleEntry "abc" "first" 1500).elems rfl rfl rfl rfl rfl

/-- C11. Boolean coercion: on well-formed listings the `Completed` and `IsMultiFile` fields of
the record `GetTorrent` returns are true exactly when the integers at positions 1 and 16 of
the matching entry are greater than 0, and the `Completed` field of the k-th record
`GetTorrents` returns is true exactly when the integer at position 6 of the k-th entry is
greater than 0; so 0 and every negative integer give false and every positive integer
gives true. -/
theorem bool_fields_true_iff_positive (c1 c2 : Client) (t : Torrent) (view : String)
    (results1 results2 : Value) (d : List Value)
    (h1 : c1.Call "d.multicall2" GetTorrent.args = (results1, none))
    (hwf1 : wellFormed GetTorrent.schema results1 = true)
    (hfirst : (entries results1).find? (hashIs t.Hash) = some d)
    (h2 : c2.Call "d.multicall2" (GetTorrents.args view) = (results2, none))
    (hwf2 : wellFormed GetTorrents.schema results2 = true) :
    (∃ ret, GetTorrent c1 t = Exec.done (ret, none) ∧
      ∃ v w : Int, d[1]? = some (Value.int v) ∧ d[16]? = some (Value.int w) ∧
        (ret.Completed = true ↔ v > 0) ∧ (ret.IsMultiFile = true ↔ w > 0)) ∧
    (∃ ts, GetTorrents c2 view = Exec.done (ts, none) ∧
      ∀ (k : Nat) (e : List Value), (entries results2)[k]? = some e →
        ∃ v : Int, e[6]? = some (Value.int v) ∧
          ∃ r, ts[k]? = some r ∧ (r.Completed = true ↔ v > 0)) := by
  have hd := entryOk_of_mem_entries hwf1 (List.mem_of_find?_eq_some hfirst)
  refine ⟨⟨GetTorrent.record d, ?_, entryInt d 1, entryInt d 16,
      getElem?_int_of_entryOk hd (i := 1) rfl, getElem?_int_of_entryOk hd (i := 16) rfl,
      by simp [GetTorrent.record], by simp [GetTorrent.record]⟩,
    ⟨(entries results2).map GetTorrents.record, GetTorrents_of_wf c2 view results2 h2 hwf2, ?_⟩⟩
  · rw [GetTorrent_of_wf c1 t results1 h1 hwf1, hfirst]
  · intro k e hk
    refine ⟨entryInt e 6, ?_, GetTorrents.record e, ?_, ?_⟩
    · exact getElem?_int_of_entryOk
        (entryOk_of_mem_entries hwf2 (List.getElem?_mem hk)) (i := 6) rfl
    · simp [List.getElem?_map, hk]
    · simp [GetTorrents.record]

/-- Witness for C11: a lookup whose entry carries completed 1 and multi-file 0, and a listing
whose entries carry completed -3 and 2. -/
theorem bool_fields_true_iff_positive_witness :
    (∃ ret, GetTorrent (stubClient (.array [.array [sampleEntry "def" "b" 0,
        sampleEntry "abc" "first" 1500]])) { Torrent.zero with Hash := "abc" }
        = Exec.done (ret, none) ∧
      ∃ v w : Int, (sampleEntry "abc" "first" 1500).elems[1]? = some (Value.int v) ∧
        (sampleEntry "abc" "first" 1500).elems[16]? = some (Value.int w) ∧
        (ret.Completed = true ↔ v > 0) ∧ (ret.IsMultiFile = true ↔ w > 0)) ∧
    (∃ ts, GetTorrents (stubClient (.array [.array [sampleRow "first" (.int 7) "ffff" (-3)
        (.int 0), sampleRow "ubuntu" (.int 100) "abc123" 2 (.int 500000)]])) "main"
        = Exec.done (ts, none) ∧
      ∀ (k : Nat) (e : List Value),
        (entries (.array [.array [sampleRow "first" (.int 7) "ffff" (-3) (.int 0),
          sampleRow "ubuntu" (.int 100) "abc123" 2 (.int 500000)]]))[k]? = some e →
        ∃ v : Int, e[6]? = some (Value.int v) ∧
          ∃ r, ts[k]? = some r ∧ (r.Completed = true ↔ v > 0)) :=
  bool_fields_true_iff_positive
    (stubClient (.array [.array [sampleEntry "def" "b" 0, sampleEntry "abc" "first" 1500]]))
    (stubClient (.array [.array [sampleRow "first" (.int 7) "ffff" (-3) (.int 0),
      sampleRow "ubuntu" (.int 100) "abc123" 2 (.int 500000)]]))
    { Torrent.zero with Hash := "abc" } "main"
    (.array [.array [sampleEntry "def" "b" 0, sampleEntry "abc" "first" 1500]])
    (.array [.array [sampleRow "first" (.int 7) "ffff" (-3) (.int 0),
      sampleRow "ubuntu" (.int 100) "abc123" 2 (.int 500000)]])
    (sampleEntry "abc" "first" 1500).elems rfl rfl rfl rfl rfl

/-- C12, as stated, fails: for a well-formed `f.multicall` result that carries two outer
arrays (two files, then one more), the third `File` of the list `GetFiles` returns has
`Index` 0, not 2, while `skipAllFiles` passes the loop index 2 to `SetFilePrority` for it. -/
theorem GetFiles_index_restarts :
    wellFormed GetFiles.schema twoOuterArrays = true ∧
    GetFiles (stubClient twoOuterArrays) { Torrent.zero with Hash := "abc" } =
      Exec.done ([GetFiles.record 0 (sampleFile "a.iso").elems,
                  GetFiles.record 1 (sampleFile "b.iso").elems,
                  GetFiles.record 0 (sampleFile "c.iso").elems], none) ∧
    (GetFiles.record 0 (sampleFile "c.iso").elems).Index = 0 ∧
    skipAllFiles { conn := stubClient twoOuterArrays, hash := "abc" } =
      Exec.done { calls := [⟨"f.multicall", GetFiles.args { Torrent.zero with Hash := "abc" }⟩,
                            setPriorityCall "abc" 0, setPriorityCall "abc" 1,
                            setPriorityCall "abc" 2],
                  err := none } :=
  ⟨rfl, rfl, rfl, rfl⟩

/-- C12, amended. For every well-formed `f.multicall` result, the `Index` of a `File`
returned by `GetFiles` is the position of its entry within its own outer array (the index
restarts at 0 for each outer array), while `skipAllFiles` passes to `SetFilePrority` the
position in the returned list. For a result with exactly one outer array the two agree:
the k-th `File` has `Index = k`, and the calls `skipAllFiles` issues after `f.multicall`
are, up to the first failing call, `f.priority.set` on `<hash>:f<Index>` for each file
in order. -/
theorem GetFiles_index_within_outer (g : Globals) (results : Value)
    (hcall : g.conn.Call "f.multicall" (GetFiles.args { Torrent.zero with Hash := g.hash })
      = (results, none))
    (hwf : wellFormed GetFiles.schema results = true) :
    ∃ files, GetFiles g.conn { Torrent.zero with Hash := g.hash } = Exec.done (files, none) ∧
      files.map File.Index
        = results.elems.flatMap
            (fun o => (List.range o.elems.length).map (fun k : Nat => (k : Int))) ∧
      (∀ inners, results = Value.array [Value.array inners] →
        files.length = inners.length ∧
          ∀ (k : Nat) (f : File), files[k]? = some f → f.Index = (k : Int)) ∧
      ∃ r issued, skipAllFiles g = Exec.done r ∧
        r.calls = ⟨"f.multicall", GetFiles.args { Torrent.zero with Hash := g.hash }⟩ :: issued ∧
        issued <+: (List.range files.length).map
          (fun k : Nat => setPriorityCall g.hash (k : Int)) ∧
        (r.err = none → issued = (List.range files.length).map
          (fun k : Nat => setPriorityCall g.hash (k : Int))) ∧
        (∀ inners, results = Value.array [Value.array inners] →
          issued <+: files.map (fun f => setPriorityCall g.hash f.Index)) := by
  have hget := GetFiles_of_wf g.conn { Torrent.zero with Hash := g.hash } results hcall hwf
  have hidx : ∀ inners, results = Value.array [Value.array inners] →
      (results.elems.flatMap (fun o => GetFiles.recordsFrom 0 o.elems)).map File.Index
        = (List.range inners.length).map (fun k : Nat => (k : Int)) := by
    intro inners hres
    subst hres
    simp [Value.elems, recordsFrom_index, List.range_eq_range']
  refine ⟨_, hget, ?_, ?_, ?_⟩
  · simp [List.map_flatMap, recordsFrom_index, List.range_eq_range']
  · intro inners hres
    subst hres
    refine ⟨by simp [Value.elems, recordsFrom_length], ?_⟩
    intro k f hk
    simp only [Value.elems, List.flatMap_cons, List.flatMap_nil, List.append_nil] at hk
    simpa using recordsFrom_getElem? 0 inners k f hk
  · refine ⟨Ran.mk
        (CallRecord.mk "f.multicall" (GetFiles.args { Torrent.zero with Hash := g.hash }) ::
          (skipAllFiles.loop g
            (results.elems.flatMap (fun o => GetFiles.recordsFrom 0 o.elems)) 0).calls)
        (skipAllFiles.loop g
            (results.elems.flatMap (fun o => GetFiles.recordsFrom 0 o.elems)) 0).err,
      (skipAllFiles.loop g
        (results.elems.flatMap (fun o => GetFiles.recordsFrom 0 o.elems)) 0).calls,
      ?_, rfl, ?_, ?_, ?_⟩
    · simp [skipAllFiles, hget]
    · rw [List.range_eq_range']
      exact skipAllFiles_loop_calls g _ 0
    · intro herr
      rw [List.range_eq_range']
      exact skipAllFiles_loop_calls_of_ok g _ 0 herr
    · intro inners hres
      have h := skipAllFiles_loop_calls g
        (results.elems.flatMap (fun o => GetFiles.recordsFrom 0 o.elems)) 0
      have hmap : (results.elems.flatMap (fun o => GetFiles.recordsFrom 0 o.elems)).map
          (fun f => setPriorityCall g.hash f.Index)
          = (List.range' 0 (results.elems.flatMap
              (fun o => GetFiles.recordsFrom 0 o.elems)).length).map
              (fun k : Nat => setPriorityCall g.hash (k : Int)) := by
        have hlen : (results.elems.flatMap (fun o => GetFiles.recordsFrom 0 o.elems)).length
            = inners.length := by
          subst hres
          simp [Value.elems, recordsFrom_length]
        rw [hlen, ← List.range_eq_range']
        have := congrArg (List.map (setPriorityCall g.hash)) (hidx inners hres)
        simpa [List.map_map, Function.comp_def] using this
      rw [hmap]
      exact h

/-- Witness for C12 (amended): three files in one outer array, behind a client whose calls
all succeed. -/
theorem GetFiles_index_within_outer_witness :
    ∃ files, GetFiles (stubClient oneOuterArray) { Torrent.zero with Hash := "abc" }
        = Exec.done (files, none) ∧
      files.map File.Index
        = oneOuterArray.elems.flatMap
            (fun o => (List.range o.elems.length).map (fun k : Nat => (k : Int))) ∧
      (∀ inners, oneOuterArray = Value.array [Value.array inners] →
        files.length = inners.length ∧
          ∀ (k : Nat) (f : File), files[k]? = some f → f.Index = (k : Int)) ∧
      ∃ r issued, skipAllFiles { conn := stubClient oneOuterArray, hash := "abc" }
          = Exec.done r ∧
        r.calls = ⟨"f.multicall", GetFiles.args { Torrent.zero with Hash := "abc" }⟩ :: issued ∧
        issued <+: (List.range files.length).map
          (fun k : Nat => setPriorityCall "abc" (k : Int)) ∧
        (r.err = none → issued = (List.range files.length).map
          (fun k : Nat => setPriorityCall "abc" (k : Int))) ∧
        (∀ inners, oneOuterArray = Value.array [Value.array inners] →
          issued <+: files.map (fun f => setPriorityCall "abc" f.Index)) :=
  GetFiles_index_within_outer { conn := stubClient oneOuterArray, hash := "abc" } oneOuterArray
    rfl rfl

end GoRtorrent
